import Mathlib

/-!
# Verification of the Juniper configuration analyzer

A shallow embedding of `juniper_config_analyzer.py`, which analyzes an
exported Juniper router configuration (XML) to report unused configuration
elements and "independent" weakly-connected components of a dependency
graph.

The embedding models the configuration document at the level of the XML
elements that the analyzer's XPath queries extract:

* a `policy-statement` has a name, a list of `term`s (each with `from` and
  `then` sections holding the reference lists the analyzer reads), and the
  subtree-level `apply-policy` / `policy-name` reference texts;
* a BGP `group` has a name, the `neighbor/name` texts, and the texts of its
  `import` / `export` clauses;
* `as-path-group` declarations carry the `as-path/name` texts nested in
  them; top-level declaration name lists are kept for `prefix-list`,
  `community` and `as-path`.

Python `set` objects are modelled as `Finset String` (an element "appears
once" by construction); the `networkx.DiGraph` built solely through
`add_edge` is modelled as the list of added edges (`DiGraph` deduplicates
edges, so all statements below are about membership).  The recursive
resolver `collect_policy_dependencies`, whose Python termination rests on
the `visited` set, is embedded with an explicit fuel parameter; a proved
adequacy theorem shows that any fuel exceeding the number of distinct
policy names yields the same result, which is the formal counterpart of
the bounded recursion depth.  Python's Unicode `\w` character class is
modelled as the ASCII word characters.
-/

/-! ## Python string primitives used by the analyzer -/

/-- The whitespace characters recognised by Python's `str.strip` and `\s`
(ASCII fragment). -/
def isPySpace (c : Char) : Bool :=
  c == ' ' || c == '\t' || c == '\n' || c == '\r' || c == '\x0b' || c == '\x0c'

/-- A character accepted by the identifier pattern `[\w-]` from
`re.match(r'^[\w-]+$', ...)` (ASCII model of `\w`). -/
def isNameChar (c : Char) : Bool :=
  c.isAlphanum || c == '_' || c == '-'

/-- Python `str.strip()` on a character list: drop whitespace from both
ends. -/
def pyStrip (l : List Char) : List Char :=
  ((l.dropWhile isPySpace).reverse.dropWhile isPySpace).reverse

/-- Python `str.strip()` on strings. -/
def pyStripStr (s : String) : String := ⟨pyStrip s.data⟩

/-- `x.replace('(', '').replace(')', '')`: erase all parentheses. -/
def removeParens (l : List Char) : List Char :=
  l.filter (fun c => !(c == '(' || c == ')'))

/-- The scanner of `re.split(r'\|\||&&|;|\s+', expr)`: at each position
the alternatives `||`, `&&`, `;` and whitespace are tried in order; a
match ends the current token (`acc` holds the current token reversed).
One inessential deviation keeps the recursion structural: `\s+` consumes
a maximal whitespace run as a single delimiter, while this scanner cuts
at every whitespace character, so a run of `k` whitespace characters
yields `k - 1` extra empty pieces; the `if p.strip()` filter of the
normalizer discards empty pieces, making the normalized result
identical. -/
def splitTokens (acc : List Char) : List Char → List (List Char)
  | [] => [acc.reverse]
  | [c] =>
    if c = ';' ∨ isPySpace c then [acc.reverse, []]
    else [(c :: acc).reverse]
  | c1 :: c2 :: rest =>
    if (c1 = '|' ∧ c2 = '|') ∨ (c1 = '&' ∧ c2 = '&') then
      acc.reverse :: splitTokens [] rest
    else if c1 = ';' ∨ isPySpace c1 then
      acc.reverse :: splitTokens [] (c2 :: rest)
    else
      splitTokens (c1 :: acc) (c2 :: rest)

/-- Whether a (split, stripped) token passes
`re.match(r'^[\w-]+$', token)`: nonempty and made of word characters or
hyphens. -/
def isNameTok (l : List Char) : Bool :=
  !l.isEmpty && l.all isNameChar

/-- The reference normalizer inlined in `build_dependency_graph`
(lines 288-290): strip parentheses, strip outer whitespace, split on
`||` / `&&` / `;` / whitespace, strip each piece and keep the nonempty
pieces matching `^[\w-]+$`. -/
def normalize_policy_expr (s : String) : List String :=
  (((splitTokens [] (pyStrip (removeParens s.data))).map pyStrip).filter isNameTok).map
    (fun l => String.mk l)

/-! ## Entity types and graph node identifiers -/

/-- The six entity categories tracked by the analyzer (the keys of the
`used_elements` dictionary and of the `types` table in
`find_unused_elements`). -/
inductive EntityType where
  | plist
  | community
  | asPath
  | asPathGroup
  | policyStmt
  | bgpGroup
deriving DecidableEq, Fintype

/-- The textual type tag used in graph node identifiers. -/
def tyStr : EntityType → String
  | .plist => "prefix-list"
  | .community => "community"
  | .asPath => "as-path"
  | .asPathGroup => "as-path-group"
  | .policyStmt => "policy-statement"
  | .bgpGroup => "bgp-group"

/-- A graph node identifier `f"{type}.{name}"` as built by the f-strings
of `build_dependency_graph`. -/
def nodeStr (t : EntityType) (n : String) : String := tyStr t ++ "." ++ n

/-- A directed graph edge as added by `G.add_edge(u, v)`. -/
abbrev Edge := String × String

/-! ## The configuration document model -/

/-- The reference texts inside one `<from>` section of a policy term:
`prefix-list-name` texts, nested `prefix-list/name` texts, `community`
texts, `as-path` texts, `as-path-group` texts and `policy` texts. -/
structure FromSect where
  plNameRefs : List String
  plNested : List String
  communityRefs : List String
  asPathRefs : List String
  asPathGroupRefs : List String
  policyRefs : List String
deriving DecidableEq

/-- The reference texts inside one `<then>` section of a policy term:
the `community/community-name` texts. -/
structure ThenSect where
  communityNames : List String
deriving DecidableEq

/-- One `<term>` of a policy-statement, with its `from` and `then`
sections. -/
structure Term where
  froms : List FromSect
  thens : List ThenSect
deriving DecidableEq

/-- A `policy-statement` element: its `name` text (`""` encodes a missing
or empty `<name>`, the falsy case of `if policy_name:`), its terms, and
the `apply-policy` / `policy-name` texts found anywhere in its subtree
(these are followed by the recursive resolver but produce no graph
edges). -/
structure PolicyStatement where
  name : String
  terms : List Term
  applyPolicyRefs : List String
  policyNameRefs : List String
deriving DecidableEq

/-- A BGP `group` element under `protocols/bgp`: name text, the
`neighbor/name` texts, and the raw `import` / `export` clause texts of its
subtree. -/
structure BgpGroup where
  name : String
  neighbors : List String
  importExprs : List String
  exportExprs : List String
deriving DecidableEq

/-- An `as-path-group` declaration: its name and the nested
`as-path/name` texts. -/
structure AsPathGroupDef where
  name : String
  asPaths : List String
deriving DecidableEq

/-- The configuration document, at the granularity the analyzer's XPath
queries observe: all policy-statements, all BGP groups, all
`as-path-group` declarations, and the remaining declaration name lists
(`prefix-list/name` of declarations, `policy-options//community/name`,
top-level `as-path/name`). -/
structure Config where
  policies : List PolicyStatement
  bgpGroups : List BgpGroup
  asPathGroupDefs : List AsPathGroupDef
  plDefs : List String
  communityDefs : List String
  asPathDefs : List String
deriving DecidableEq

/-- All `from` sections of a policy, in document order (the `//from`
descendant axis of the policy's XPath queries). -/
def fromSects (pol : PolicyStatement) : List FromSect :=
  pol.terms.flatMap (·.froms)

/-- All `then` sections of a policy. -/
def thenSects (pol : PolicyStatement) : List ThenSect :=
  pol.terms.flatMap (·.thens)

/-- The sub-policy reference texts of a policy's subtree:
`//apply-policy/text() | //policy-name/text() | //from/policy/text()`
(line 112). -/
def subRefs (pol : PolicyStatement) : List String :=
  pol.applyPolicyRefs ++ pol.policyNameRefs ++ (fromSects pol).flatMap (·.policyRefs)

/-- `//*[local-name()="as-path-group" and *[local-name()="name" and
text()=g]]/*[local-name()="as-path"]/*[local-name()="name"]/text()`: the
as-path names nested under every `as-path-group` declaration named `g`. -/
def apgAsPaths (cfg : Config) (g : String) : List String :=
  (cfg.asPathGroupDefs.filter (fun a => a.name == g)).flatMap (·.asPaths)

/-- `//*[local-name()="policy-statement" and *[local-name()="name" and
text()=p]]`: every policy-statement declaration named `p` (duplicate
names across scopes all match). -/
def matchingPolicies (cfg : Config) (p : String) : List PolicyStatement :=
  cfg.policies.filter (fun pol => pol.name == p)

/-! ## Used-element sets -/

/-- The `used_elements` dictionary of sets, one `Finset` per entity
type. -/
structure UsedElements where
  plUsed : Finset String
  communityUsed : Finset String
  asPathUsed : Finset String
  asPathGroupUsed : Finset String
  policyUsed : Finset String
  bgpGroupUsed : Finset String
deriving DecidableEq

/-- The empty `used_elements` dictionary initialised at the top of
`build_dependency_graph`. -/
def emptyUsed : UsedElements := ⟨∅, ∅, ∅, ∅, ∅, ∅⟩

/-- Look up the used-set of one entity type. -/
def UsedElements.get (u : UsedElements) : EntityType → Finset String
  | .plist => u.plUsed
  | .community => u.communityUsed
  | .asPath => u.asPathUsed
  | .asPathGroup => u.asPathGroupUsed
  | .policyStmt => u.policyUsed
  | .bgpGroup => u.bgpGroupUsed

/-! ## The recursive resolver `collect_policy_dependencies` (lines 69-114) -/

/-- The `prefix-list` references collected from every policy named `p`:
`//prefix-list-name/text()` (line 83) and
`//from/prefix-list/name/text()` (line 87). -/
def collectPlRefs (cfg : Config) (p : String) : List String :=
  (matchingPolicies cfg p).flatMap fun pol =>
    (fromSects pol).flatMap fun f => f.plNameRefs ++ f.plNested

/-- The `community` references collected from every policy named `p`:
`//from/community/text()` and `//then/community/community-name/text()`
(line 91), skipping captures that strip to the empty string (line 92). -/
def collectCommRefs (cfg : Config) (p : String) : List String :=
  ((matchingPolicies cfg p).flatMap fun pol =>
    ((fromSects pol).flatMap (·.communityRefs)) ++
      ((thenSects pol).flatMap (·.communityNames))).filter
    (fun n => pyStripStr n != "")

/-- The direct `as-path` references collected from every policy named `p`
(line 98), unguarded. -/
def collectApRefs (cfg : Config) (p : String) : List String :=
  (matchingPolicies cfg p).flatMap fun pol => (fromSects pol).flatMap (·.asPathRefs)

/-- The `as-path-group` references collected from every policy named `p`
(line 102), skipping captures that strip to the empty string
(line 103). -/
def collectApgRefs (cfg : Config) (p : String) : List String :=
  ((matchingPolicies cfg p).flatMap fun pol =>
    (fromSects pol).flatMap (·.asPathGroupRefs)).filter
    (fun n => pyStripStr n != "")

/-- The sub-policy references of every policy named `p` (line 112). -/
def collectSubRefs (cfg : Config) (p : String) : List String :=
  (matchingPolicies cfg p).flatMap subRefs

/-- The non-recursive part of one `collect_policy_dependencies` call on
`p`: mark `p` used (line 78) and add every collected prefix-list,
community, as-path, as-path-group reference, and the as-path names nested
in each referenced as-path-group (lines 83-110).  The Python `set.add`
loops are modelled as unions. -/
def collectStepUsed (cfg : Config) (p : String) (used : UsedElements) : UsedElements :=
  { used with
    policyUsed := insert p used.policyUsed
    plUsed := used.plUsed ∪ (collectPlRefs cfg p).toFinset
    communityUsed := used.communityUsed ∪ (collectCommRefs cfg p).toFinset
    asPathUsed := used.asPathUsed ∪ (collectApRefs cfg p).toFinset ∪
      ((collectApgRefs cfg p).flatMap (apgAsPaths cfg)).toFinset
    asPathGroupUsed := used.asPathGroupUsed ∪ (collectApgRefs cfg p).toFinset }

/-- `collect_policy_dependencies(root, p, used_elements, ns, visited)`:
return unchanged if `p` is in `visited` (line 73); otherwise add `p` to
`visited` and to the used policies, collect the policy's direct
references, and recurse into each sub-policy reference (line 114),
threading `used` and `visited`.  The Python recursion terminates through
the visited set; here the same bound is made explicit as a `fuel`
argument, and `collect_fuel_adequate` below proves that any fuel
exceeding the number of distinct unvisited policy names gives the fixed
result. -/
def collect_policy_dependencies (cfg : Config) :
    Nat → String → UsedElements → List String → UsedElements × List String
  | 0, _, used, visited => (used, visited)
  | fuel + 1, p, used, visited =>
    if p ∈ visited then (used, visited)
    else
      (collectSubRefs cfg p).foldl
        (fun st s => collect_policy_dependencies cfg fuel s st.1 st.2)
        (collectStepUsed cfg p used, p :: visited)

/-- The set of declared policy-statement names (with multiplicity
removed): the bound for the resolver's recursion depth. -/
def policyNames (cfg : Config) : Finset String :=
  (cfg.policies.map (·.name)).toFinset

/-- The fuel used for every top-level resolver call: one more than the
number of distinct policy names, which `collect_fuel_adequate` proves
sufficient. -/
def policyFuel (cfg : Config) : Nat := (policyNames cfg).card + 1

/-! ## The dependency graph builder `build_dependency_graph`
(lines 190-303) -/

/-- The edges added for one `<from>` section of a named policy
(lines 228-256): prefix-list (both forms), community (skipping
strip-empty captures), as-path, as-path-group (skipping strip-empty
captures, and fanning out to the as-path names nested in every matching
`as-path-group` declaration), and `from/policy` sub-policy references. -/
def fromEdges (cfg : Config) (pname : String) (f : FromSect) : List Edge :=
  f.plNameRefs.map (fun n => (nodeStr .policyStmt pname, nodeStr .plist n))
    ++ f.plNested.map (fun n => (nodeStr .policyStmt pname, nodeStr .plist n))
    ++ (f.communityRefs.filter (fun n => pyStripStr n != "")).map
      (fun n => (nodeStr .policyStmt pname, nodeStr .community n))
    ++ f.asPathRefs.map (fun n => (nodeStr .policyStmt pname, nodeStr .asPath n))
    ++ (f.asPathGroupRefs.filter (fun n => pyStripStr n != "")).flatMap
      (fun gn => (nodeStr .policyStmt pname, nodeStr .asPathGroup gn) ::
        (apgAsPaths cfg gn).map (fun an => (nodeStr .asPathGroup gn, nodeStr .asPath an)))
    ++ f.policyRefs.map (fun n => (nodeStr .policyStmt pname, nodeStr .policyStmt n))

/-- The edges added for one `<then>` section of a named policy
(lines 258-264): community-name references, skipping strip-empty
captures. -/
def thenEdges (pname : String) (th : ThenSect) : List Edge :=
  (th.communityNames.filter (fun n => pyStripStr n != "")).map
    (fun n => (nodeStr .policyStmt pname, nodeStr .community n))

/-- All edges contributed by one policy-statement element (lines
220-264); a policy whose name is missing/empty is skipped
(`if policy_name:`). -/
def policyEdges (cfg : Config) (pol : PolicyStatement) : List Edge :=
  if pol.name ≠ "" then
    pol.terms.flatMap fun t =>
      t.froms.flatMap (fromEdges cfg pol.name) ++ t.thens.flatMap (thenEdges pol.name)
  else []

/-- The policy-name tokens of a BGP group's import/export clauses, in
clause order, each clause normalized (lines 287-292). -/
def groupPolicyTokens (g : BgpGroup) : List String :=
  (g.importExprs ++ g.exportExprs).flatMap normalize_policy_expr

/-- Processing of one BGP group element (lines 270-298): skipped unless
it has a name and at least one `neighbor/name` (is active); an active
group is marked used, and for each normalized import/export token: the
token is marked used, an edge `bgp-group.g -> policy-statement.token` is
appended, and the resolver is invoked on the token with a fresh `visited`
set. -/
def groupStep (cfg : Config) (acc : List Edge × UsedElements) (g : BgpGroup) :
    List Edge × UsedElements :=
  if g.name ≠ "" ∧ g.neighbors ≠ [] then
    (groupPolicyTokens g).foldl
      (fun st pn =>
        (st.1 ++ [(nodeStr .bgpGroup g.name, nodeStr .policyStmt pn)],
          (collect_policy_dependencies cfg (policyFuel cfg) pn
            { st.2 with policyUsed := insert pn st.2.policyUsed } []).1))
      (acc.1, { acc.2 with bgpGroupUsed := insert g.name acc.2.bgpGroupUsed })
  else acc

/-- `build_dependency_graph(root)`: edges from every policy-statement,
then processing of every BGP group, starting from the empty used sets. -/
def build_dependency_graph (cfg : Config) : List Edge × UsedElements :=
  cfg.bgpGroups.foldl (groupStep cfg) (cfg.policies.flatMap (policyEdges cfg), emptyUsed)

/-! ## The unused-element detector `find_unused_elements`
(lines 116-188) -/

/-- The `defined` XPath of the `types` table, per entity type.  Note that
`//prefix-list/name/text()` also matches the nested reference form
`<from><prefix-list><name>`, so for `prefix-list` the "defined" set
includes those reference texts as well; `//as-path/name/text()` likewise
includes the as-path declarations nested in `as-path-group` elements. -/
def definedNames (cfg : Config) : EntityType → Finset String
  | .plist =>
    (cfg.plDefs ++ cfg.policies.flatMap fun pol =>
      (fromSects pol).flatMap (·.plNested)).toFinset
  | .community => cfg.communityDefs.toFinset
  | .asPath => (cfg.asPathDefs ++ cfg.asPathGroupDefs.flatMap (·.asPaths)).toFinset
  | .asPathGroup => ((cfg.asPathGroupDefs.map (·.name)).filter (fun n => n != "")).toFinset
  | .policyStmt => ((cfg.policies.map (·.name)).filter (fun n => n != "")).toFinset
  | .bgpGroup => ((cfg.bgpGroups.map (·.name)).filter (fun n => n != "")).toFinset

/-- The iteration order of the `types` dictionary. -/
def typeOrder : List EntityType :=
  [.plist, .community, .asPath, .asPathGroup, .policyStmt, .bgpGroup]

/-- `find_unused_elements(root, used_elements)` (lines 179-188): for each
type, `unused = defined - used`; a type with an empty difference is left
out of the result dictionary. -/
def find_unused_elements (cfg : Config) (used : UsedElements) :
    List (EntityType × Finset String) :=
  typeOrder.filterMap fun t =>
    let unused := definedNames cfg t \ used.get t
    if unused = ∅ then none else some (t, unused)

/-- The unused-set reported for one type (the empty set when the type is
absent from the result dictionary). -/
def lookupUnused (res : List (EntityType × Finset String)) (t : EntityType) : Finset String :=
  ((res.find? (fun e => e.1 == t)).map (·.2)).getD ∅

/-! ## Weakly-connected components and `find_independent_components`
(lines 305-313) -/

/-- A component: a set of node identifiers. -/
abbrev Comp := Finset String

/-- Ensure a node has a containing class, giving it a fresh singleton
class when no existing class holds it. -/
def insertNode (comps : List Comp) (n : String) : List Comp :=
  if comps.any (fun c => decide (n ∈ c)) then comps else ({n} : Finset String) :: comps

/-- Merge step of the undirected-connectivity computation: make sure both
endpoints are covered, then fuse the class of the source with the class
of the target. -/
def addEdgeComps (comps : List Comp) (e : Edge) : List Comp :=
  let comps1 := insertNode (insertNode comps e.1) e.2
  match comps1.find? (fun c => decide (e.1 ∈ c)), comps1.find? (fun c => decide (e.2 ∈ c)) with
  | some ca, some cb =>
    if ca = cb then comps1
    else (ca ∪ cb) :: comps1.filter (fun c => decide (c ≠ ca) && decide (c ≠ cb))
  | _, _ => comps1

/-- Model of `nx.weakly_connected_components(G)`: group the endpoints of
the edges while ignoring edge direction.  (Every node of the analyzer's
graph is the endpoint of some added edge, since the graph is built
exclusively through `add_edge`.) -/
def weakly_connected_components (G : List Edge) : List Comp :=
  G.foldl addEdgeComps []

/-- The deduplicated edge set of the `DiGraph`. -/
def edgeFinset (G : List Edge) : Finset Edge := G.toFinset

/-- `G.in_degree(n)`: the number of distinct edges pointing at `n`. -/
def inDegree (G : List Edge) (n : String) : Nat :=
  ((edgeFinset G).filter (fun e => e.2 = n)).card

/-- The generator condition of line 310:
`any(G.in_degree(node) > 0 for node in component
     for pred in G.predecessors(node) if pred not in component)`. -/
def hasOutsidePred (G : List Edge) (comp : Comp) : Prop :=
  ∃ n ∈ comp, ∃ e ∈ edgeFinset G, e.2 = n ∧ e.1 ∉ comp ∧ 0 < inDegree G n

instance (G : List Edge) (comp : Comp) : Decidable (hasOutsidePred G comp) := by
  unfold hasOutsidePred; infer_instance

/-- `find_independent_components(G)` (lines 305-313): the weakly-connected
components whose nodes have no predecessor outside the component. -/
def find_independent_components (G : List Edge) : List Comp :=
  (weakly_connected_components G).filter (fun comp => decide (¬ hasOutsidePred G comp))

/-- Modelled from the spec (§4.6): a component is independent iff no node
in it has an inbound edge originating from a node outside the component.
Used to compare the implementation's filter with the specified
predicate. -/
def specIndependent (G : List Edge) (comp : Comp) : Prop :=
  ∀ n ∈ comp, ∀ e ∈ edgeFinset G, e.2 = n → e.1 ∈ comp

instance (G : List Edge) (comp : Comp) : Decidable (specIndependent G comp) := by
  unfold specIndependent; infer_instance

/-- The node set of the graph: every endpoint of an added edge (the
`DiGraph` gains nodes only through `add_edge`). -/
def nodeSet (G : List Edge) : Finset String :=
  (G.flatMap fun e => [e.1, e.2]).toFinset

/-! ## The `main` entry point (lines 315-385) -/

/-- The outcome of the input-loading phase of `main`, whose effects
(file I/O, lxml and jxmlease parsing) are external to the analyzer: the
file may be missing (line 334), the XML may be malformed (line 337), or
parsing succeeds and the document either carries the
`rpc-reply/configuration` envelope or not (line 349). -/
inductive LoadResult where
  | fileNotFound
  | xmlSyntaxError
  | parsed (hasEnvelope : Bool) (cfg : Config)

/-- The process exit code of one `main` run on a given load outcome:
`sys.exit(1)` on the three input errors, and completion of the full
analysis (graph build, unused report, component report) otherwise, which
ends the process with code 0. -/
def mainExitCode (r : LoadResult) : Nat :=
  match r with
  | .fileNotFound => 1
  | .xmlSyntaxError => 1
  | .parsed hasEnvelope cfg =>
    if hasEnvelope then
      let gUsed := build_dependency_graph cfg
      let _unused := find_unused_elements cfg gUsed.2
      let _comps := find_independent_components gUsed.1
      0
    else 1

/-! ## Concrete example configurations (used by witnesses and
counterexamples) -/

/-- A `from` section with no references. -/
def emptyFrom : FromSect := ⟨[], [], [], [], [], []⟩

/-- A two-policy chain: `P1` references `P2` through `from/policy`,
nothing else is present. -/
def chainCfg : Config :=
  { policies := [⟨"P1", [⟨[{ emptyFrom with policyRefs := ["P2"] }], []⟩], [], []⟩,
                 ⟨"P2", [], [], []⟩],
    bgpGroups := [], asPathGroupDefs := [], plDefs := [], communityDefs := [],
    asPathDefs := [] }

/-- A BGP group with no neighbor (inactive) importing policy `P`. -/
def inactiveGroup : BgpGroup := ⟨"g", [], ["P"], []⟩

/-- A configuration whose only content is the inactive group `g`. -/
def inactiveCfg : Config :=
  { policies := [], bgpGroups := [inactiveGroup], asPathGroupDefs := [],
    plDefs := [], communityDefs := [], asPathDefs := [] }

/-- The empty configuration. -/
def noGroupCfg : Config :=
  { policies := [], bgpGroups := [], asPathGroupDefs := [], plDefs := [],
    communityDefs := [], asPathDefs := [] }

/-- Mutually referencing policies `A -> B -> A` with an active group `G`
importing `A`. -/
def cycleCfg : Config :=
  { policies := [⟨"A", [⟨[{ emptyFrom with policyRefs := ["B"] }], []⟩], [], []⟩,
                 ⟨"B", [⟨[{ emptyFrom with policyRefs := ["A"] }], []⟩], [], []⟩],
    bgpGroups := [⟨"G", ["10.0.0.1"], ["A"], []⟩], asPathGroupDefs := [],
    plDefs := [], communityDefs := [], asPathDefs := [] }

/-- A policy `P` that references prefix-list `GHOST` in the nested
`from/prefix-list/name` form; `GHOST` is never declared and `P` is not
imported by any group. -/
def ghostCfg : Config :=
  { policies := [⟨"P", [⟨[{ emptyFrom with plNested := ["GHOST"] }], []⟩], [], []⟩],
    bgpGroups := [], asPathGroupDefs := [], plDefs := [], communityDefs := [],
    asPathDefs := [] }

/-- A policy with one whitespace-only and one proper community reference,
and one whitespace-only and one proper as-path-group reference. -/
def blankRefCfg : Config :=
  { policies := [⟨"P", [⟨[⟨[], [], [" ", "C1"], [], ["  ", "APG1"], []⟩], []⟩], [], []⟩],
    bgpGroups := [], asPathGroupDefs := [⟨"APG1", ["AP1"]⟩], plDefs := [],
    communityDefs := [], asPathDefs := [] }

/-- A declared policy `LONE` with no references at all, next to the
`P1 -> P2` chain. -/
def loneCfg : Config :=
  { policies := [⟨"LONE", [], [], []⟩,
                 ⟨"P1", [⟨[{ emptyFrom with policyRefs := ["P2"] }], []⟩], [], []⟩],
    bgpGroups := [⟨"H", [], [], []⟩], asPathGroupDefs := [], plDefs := [],
    communityDefs := [], asPathDefs := [] }

/-- The configuration with every `apply-policy` and `policy-name`
reference text erased from every policy subtree.  Comparing the graph
built from it with the original graph states that these two reference
forms, though followed by the recursive resolver, contribute no
edges. -/
def dropSubRefForms (cfg : Config) : Config :=
  { cfg with policies := cfg.policies.map fun pol =>
      { pol with applyPolicyRefs := [], policyNameRefs := [] } }

/-- A configuration violating claim C1 twice over: policy `Q` references
policy `R` through `apply-policy` (a form the resolver enumerates), and
the inactive group `g` (no neighbor) imports policy `P`. -/
def c1Cfg : Config :=
  { policies := [⟨"Q", [], ["R"], []⟩, ⟨"R", [], [], []⟩],
    bgpGroups := [inactiveGroup], asPathGroupDefs := [], plDefs := [],
    communityDefs := [], asPathDefs := [] }

/-- Componentwise inclusion of used-element sets: the sets only ever
grow during a run. -/
def UsedLE (u v : UsedElements) : Prop :=
  u.plUsed ⊆ v.plUsed ∧ u.communityUsed ⊆ v.communityUsed ∧
    u.asPathUsed ⊆ v.asPathUsed ∧ u.asPathGroupUsed ⊆ v.asPathGroupUsed ∧
    u.policyUsed ⊆ v.policyUsed ∧ u.bgpGroupUsed ⊆ v.bgpGroupUsed

/-- Closed form of the edges contributed by one BGP group: one edge per
normalized import/export token when the group is named and active,
nothing otherwise. -/
def groupEdges (g : BgpGroup) : List Edge :=
  if g.name ≠ "" ∧ g.neighbors ≠ [] then
    (groupPolicyTokens g).map
      (fun pn => (nodeStr .bgpGroup g.name, nodeStr .policyStmt pn))
  else []

/-! # Theorems -/

/-! ## Generic list and string lemmas -/

theorem list_append_factor {α : Type} :
    ∀ (p q x y : List α), p ++ x = q ++ y →
      (∃ r, q = p ++ r) ∨ (∃ r, p = q ++ r) := by
  intro p
  induction p with
  | nil => intro q x y _; exact Or.inl ⟨q, rfl⟩
  | cons a p ih =>
    intro q x y h
    cases q with
    | nil => exact Or.inr ⟨a :: p, rfl⟩
    | cons b q =>
      simp only [List.cons_append, List.cons.injEq] at h
      rcases ih q x y h.2 with ⟨r, hr⟩ | ⟨r, hr⟩
      · exact Or.inl ⟨r, by simp [h.1, hr]⟩
      · exact Or.inr ⟨r, by simp [h.1, hr]⟩

/-! ## Injectivity of graph node identifiers -/

theorem nodeStr_data (t : EntityType) (n : String) :
    (nodeStr t n).data = ((tyStr t).data ++ ['.']) ++ n.data := by
  have hdot : ("." : String).data = ['.'] := rfl
  simp [nodeStr, String.data_append, hdot]

theorem tyDot_take_ne :
    ∀ t₁ t₂ : EntityType, t₁ ≠ t₂ →
      ((tyStr t₂).data ++ ['.']).take ((tyStr t₁).data ++ ['.']).length ≠
        (tyStr t₁).data ++ ['.'] := by
  decide

theorem nodeStr_inj {t₁ t₂ : EntityType} {n₁ n₂ : String}
    (h : nodeStr t₁ n₁ = nodeStr t₂ n₂) : t₁ = t₂ ∧ n₁ = n₂ := by
  have hd := congrArg String.data h
  rw [nodeStr_data, nodeStr_data] at hd
  by_cases hty : t₁ = t₂
  · subst hty
    exact ⟨rfl, String.ext (List.append_cancel_left hd)⟩
  · exfalso
    rcases list_append_factor _ _ _ _ hd with ⟨r, hr⟩ | ⟨r, hr⟩
    · have ht := congrArg (List.take ((tyStr t₁).data ++ ['.']).length) hr
      rw [List.take_left] at ht
      exact tyDot_take_ne t₁ t₂ hty ht
    · have ht := congrArg (List.take ((tyStr t₂).data ++ ['.']).length) hr
      rw [List.take_left] at ht
      exact tyDot_take_ne t₂ t₁ (Ne.symm hty) ht

theorem nodeStr_ty_ne {t₁ t₂ : EntityType} (hty : t₁ ≠ t₂) (n₁ n₂ : String) :
    nodeStr t₁ n₁ ≠ nodeStr t₂ n₂ :=
  fun h => hty (nodeStr_inj h).1

/-! ## Properties of the reference normalizer -/

theorem nameChar_spec {c : Char} (h : isNameChar c = true) :
    c ≠ '|' ∧ c ≠ '&' ∧ c ≠ ';' ∧ isPySpace c = false ∧ c ≠ '(' ∧ c ≠ ')' := by
  refine ⟨?_, ?_, ?_, ?_, ?_, ?_⟩
  · intro hc; subst hc; exact absurd h (by decide)
  · intro hc; subst hc; exact absurd h (by decide)
  · intro hc; subst hc; exact absurd h (by decide)
  · by_contra hs
    have hs' : isPySpace c = true := by
      cases hps : isPySpace c
      · exact absurd hps hs
      · rfl
    simp only [isPySpace, Bool.or_eq_true, beq_iff_eq] at hs'
    rcases hs' with ((((rfl | rfl) | rfl) | rfl) | rfl) | rfl <;>
      exact absurd h (by decide)
  · intro hc; subst hc; exact absurd h (by decide)
  · intro hc; subst hc; exact absurd h (by decide)

theorem dropWhile_of_not {p : Char → Bool} :
    ∀ l : List Char, (∀ c ∈ l, p c = false) → l.dropWhile p = l := by
  intro l h
  cases l with
  | nil => rfl
  | cons a l => simp [List.dropWhile, h a (List.mem_cons_self a l)]

theorem pyStrip_of_name (l : List Char) (h : ∀ c ∈ l, isNameChar c = true) :
    pyStrip l = l := by
  have hs : ∀ c ∈ l, isPySpace c = false := fun c hc => (nameChar_spec (h c hc)).2.2.2.1
  unfold pyStrip
  rw [dropWhile_of_not l hs, dropWhile_of_not l.reverse
    (fun c hc => hs c (List.mem_reverse.mp hc)), List.reverse_reverse]

theorem splitTokens_of_name :
    ∀ (l : List Char), (∀ c ∈ l, isNameChar c = true) →
      ∀ acc, splitTokens acc l = [acc.reverse ++ l] := by
  intro l
  induction l with
  | nil => intro _ acc; simp [splitTokens]
  | cons c1 t ih =>
    intro h acc
    have hc1 := nameChar_spec (h c1 (List.mem_cons_self c1 t))
    cases t with
    | nil =>
      simp only [splitTokens, hc1.2.2.1, hc1.2.2.2.1]
      simp
    | cons c2 t' =>
      have hc2 := nameChar_spec (h c2 (by simp))
      have ht : ∀ c ∈ c2 :: t', isNameChar c = true := fun c hc => h c (by simp [hc])
      simp only [splitTokens, hc1.1, hc1.2.1, hc1.2.2.1, hc1.2.2.2.1, false_and,
        or_self, if_false, Bool.false_eq_true, or_false, if_neg]
      rw [ih ht (c1 :: acc)]
      simp

theorem mem_normalize (x t : String) (h : t ∈ normalize_policy_expr x) :
    t.data ≠ [] ∧ ∀ c ∈ t.data, isNameChar c = true := by
  simp only [normalize_policy_expr, List.mem_map, List.mem_filter] at h
  obtain ⟨l, ⟨-, htok⟩, rfl⟩ := h
  simp only [isNameTok, Bool.and_eq_true, Bool.not_eq_true', List.all_eq_true] at htok
  obtain ⟨hne, hall⟩ := htok
  exact ⟨by simpa using hne, hall⟩

theorem normalize_of_name (t : String) (hne : t.data ≠ [])
    (h : ∀ c ∈ t.data, isNameChar c = true) : normalize_policy_expr t = [t] := by
  unfold normalize_policy_expr
  have hrp : removeParens t.data = t.data := by
    refine List.filter_eq_self.mpr fun c hc => ?_
    have := nameChar_spec (h c hc)
    simp [this.2.2.2.2.1, this.2.2.2.2.2]
  have hst : pyStrip t.data = t.data := pyStrip_of_name t.data h
  rw [hrp, hst, splitTokens_of_name t.data h []]
  simp only [List.reverse_nil, List.nil_append, List.map_cons, List.map_nil, hst]
  have htok : isNameTok t.data = true := by
    simp only [isNameTok, Bool.and_eq_true, Bool.not_eq_true', List.all_eq_true]
    exact ⟨by simpa using hne, h⟩
  simp [List.filter, htok]

theorem normalize_fixes_token (x t : String) (h : t ∈ normalize_policy_expr x) :
    normalize_policy_expr t = [t] := by
  obtain ⟨hne, hall⟩ := mem_normalize x t h
  exact normalize_of_name t hne hall

/-- C7: the reference normalizer is idempotent: re-normalizing the output
of `normalize_policy_expr` (elementwise, collecting the results) returns
the output unchanged, and normalizing any single already-normalized name
returns exactly that name. -/
theorem normalize_policy_expr_idempotent :
    (∀ x : String,
      (normalize_policy_expr x).flatMap normalize_policy_expr = normalize_policy_expr x)
    ∧ (∀ x t : String, t ∈ normalize_policy_expr x → normalize_policy_expr t = [t]) := by
  constructor
  · intro x
    have : ∀ l : List String, (∀ t ∈ l, normalize_policy_expr t = [t]) →
        l.flatMap normalize_policy_expr = l := by
      intro l
      induction l with
      | nil => intro _; rfl
      | cons a l ih =>
        intro hl
        rw [List.flatMap_cons, hl a (List.mem_cons_self a l),
          ih fun t ht => hl t (List.mem_cons_of_mem a ht)]
        rfl
    exact this _ fun t ht => normalize_fixes_token x t ht
  · exact normalize_fixes_token

/-- Witness for C7 at a concrete compound expression. -/
theorem normalize_policy_expr_idempotent_witness :
    normalize_policy_expr "A" = ["A"] :=
  normalize_policy_expr_idempotent.2 "(A && B) || C" "A" (by decide)

/-- C9: the modelled `main` exits with code 1 exactly on the three input
errors (file not found, malformed XML, missing
`rpc-reply/configuration` envelope), and completes the analysis with
exit code 0 in every other case. -/
theorem mainExitCode_spec :
    ∀ r : LoadResult,
      (mainExitCode r = 1 ↔
        (r = .fileNotFound ∨ r = .xmlSyntaxError ∨ ∃ cfg, r = .parsed false cfg))
      ∧ (mainExitCode r = 0 ↔ ∃ cfg, r = .parsed true cfg) := by
  intro r
  cases r with
  | fileNotFound => simp [mainExitCode]
  | xmlSyntaxError => simp [mainExitCode]
  | parsed env cfg =>
    cases env with
    | false => simp [mainExitCode]
    | true =>
      refine ⟨?_, ?_⟩
      · simp [mainExitCode]
      · exact ⟨fun _ => ⟨cfg, rfl⟩, fun _ => rfl⟩

/-! ## Dependence of the analysis only on policies and as-path-groups -/

theorem matchingPolicies_congr {cfg1 cfg2 : Config}
    (hp : cfg1.policies = cfg2.policies) (p : String) :
    matchingPolicies cfg1 p = matchingPolicies cfg2 p := by
  unfold matchingPolicies; rw [hp]

theorem apgAsPaths_congr {cfg1 cfg2 : Config}
    (ha : cfg1.asPathGroupDefs = cfg2.asPathGroupDefs) (g : String) :
    apgAsPaths cfg1 g = apgAsPaths cfg2 g := by
  unfold apgAsPaths; rw [ha]

theorem collectStepUsed_congr {cfg1 cfg2 : Config}
    (hp : cfg1.policies = cfg2.policies)
    (ha : cfg1.asPathGroupDefs = cfg2.asPathGroupDefs) (p : String) (u : UsedElements) :
    collectStepUsed cfg1 p u = collectStepUsed cfg2 p u := by
  unfold collectStepUsed collectPlRefs collectCommRefs collectApRefs collectApgRefs
  rw [matchingPolicies_congr hp, funext (apgAsPaths_congr ha)]

theorem collectSubRefs_congr {cfg1 cfg2 : Config}
    (hp : cfg1.policies = cfg2.policies) (p : String) :
    collectSubRefs cfg1 p = collectSubRefs cfg2 p := by
  unfold collectSubRefs; rw [matchingPolicies_congr hp]

theorem collect_congr {cfg1 cfg2 : Config}
    (hp : cfg1.policies = cfg2.policies)
    (ha : cfg1.asPathGroupDefs = cfg2.asPathGroupDefs) :
    ∀ (fuel : Nat) (p : String) (u : UsedElements) (v : List String),
      collect_policy_dependencies cfg1 fuel p u v =
        collect_policy_dependencies cfg2 fuel p u v := by
  intro fuel
  induction fuel with
  | zero => intro p u v; rfl
  | succ fuel ih =>
    intro p u v
    simp only [collect_policy_dependencies]
    by_cases hv : p ∈ v
    · simp [hv]
    · simp only [hv, if_false]
      rw [collectSubRefs_congr hp, collectStepUsed_congr hp ha]
      have hf : (fun (st : UsedElements × List String) s =>
          collect_policy_dependencies cfg1 fuel s st.1 st.2) =
          (fun (st : UsedElements × List String) s =>
          collect_policy_dependencies cfg2 fuel s st.1 st.2) := by
        funext st s
        exact ih s st.1 st.2
      rw [hf]

theorem policyFuel_congr {cfg1 cfg2 : Config} (hp : cfg1.policies = cfg2.policies) :
    policyFuel cfg1 = policyFuel cfg2 := by
  unfold policyFuel policyNames; rw [hp]

theorem policyEdges_congr {cfg1 cfg2 : Config}
    (ha : cfg1.asPathGroupDefs = cfg2.asPathGroupDefs) (pol : PolicyStatement) :
    policyEdges cfg1 pol = policyEdges cfg2 pol := by
  unfold policyEdges fromEdges
  rw [funext (apgAsPaths_congr ha)]

theorem groupStep_congr {cfg1 cfg2 : Config}
    (hp : cfg1.policies = cfg2.policies)
    (ha : cfg1.asPathGroupDefs = cfg2.asPathGroupDefs)
    (acc : List Edge × UsedElements) (g : BgpGroup) :
    groupStep cfg1 acc g = groupStep cfg2 acc g := by
  unfold groupStep
  by_cases hg : g.name ≠ "" ∧ g.neighbors ≠ []
  · simp only [hg, if_true]
    have hf : (fun (st : List Edge × UsedElements) pn =>
        (st.1 ++ [(nodeStr .bgpGroup g.name, nodeStr .policyStmt pn)],
          (collect_policy_dependencies cfg1 (policyFuel cfg1) pn
            { st.2 with policyUsed := insert pn st.2.policyUsed } []).1)) =
        (fun (st : List Edge × UsedElements) pn =>
        (st.1 ++ [(nodeStr .bgpGroup g.name, nodeStr .policyStmt pn)],
          (collect_policy_dependencies cfg2 (policyFuel cfg2) pn
            { st.2 with policyUsed := insert pn st.2.policyUsed } []).1)) := by
      funext st pn
      rw [policyFuel_congr hp, collect_congr hp ha]
    rw [hf]
  · simp only [hg, if_false]

/-! ## Active and inactive BGP groups -/

theorem groupStep_inactive (cfg : Config) (acc : List Edge × UsedElements)
    (g : BgpGroup) (h : g.neighbors = []) : groupStep cfg acc g = acc := by
  unfold groupStep
  rw [if_neg]
  intro hc
  exact hc.2 h

/-- C6 (amended statement is the claim itself): a BGP group is processed
as active exactly when its `neighbor/name` list is nonempty, and removing
an inactive group from the configuration changes nothing in the result of
`build_dependency_graph` — neither any used set nor the edge list — so an
inactive group contributes zero entries to every used set even when it
carries import/export clauses. -/
theorem inactive_group_contributes_nothing :
    ∀ (cfg : Config) (pre post : List BgpGroup) (g : BgpGroup),
      g.neighbors = [] →
        build_dependency_graph { cfg with bgpGroups := pre ++ g :: post } =
          build_dependency_graph { cfg with bgpGroups := pre ++ post } := by
  intro cfg pre post g h
  unfold build_dependency_graph
  simp only [List.foldl_append, List.foldl_cons]
  rw [groupStep_inactive _ _ _ h]
  have hstep := @groupStep_congr { cfg with bgpGroups := pre ++ g :: post }
    { cfg with bgpGroups := pre ++ post } rfl rfl
  have hpe := @policyEdges_congr { cfg with bgpGroups := pre ++ g :: post }
    { cfg with bgpGroups := pre ++ post } rfl
  have hfun : groupStep { cfg with bgpGroups := pre ++ g :: post } =
      groupStep { cfg with bgpGroups := pre ++ post } := by
    funext acc gg; exact hstep acc gg
  rw [hfun, funext hpe]

/-- Witness for C6: the inactive group `g` of `inactiveCfg` (which
imports policy `P`) can be dropped without changing the analysis
result. -/
theorem inactive_group_contributes_nothing_witness :
    inactiveGroup.neighbors = [] ∧
      build_dependency_graph { noGroupCfg with bgpGroups := [] ++ inactiveGroup :: [] } =
        build_dependency_graph { noGroupCfg with bgpGroups := [] ++ [] } :=
  ⟨rfl, inactive_group_contributes_nothing noGroupCfg [] [] inactiveGroup rfl⟩

/-! ## The unused-element detector -/

theorem lookupUnused_of_not_mem (d : EntityType → Finset String) :
    ∀ (l : List EntityType) (t : EntityType), t ∉ l →
      lookupUnused (l.filterMap fun x => if d x = ∅ then none else some (x, d x)) t = ∅ := by
  intro l
  induction l with
  | nil => intro t _; rfl
  | cons a l ih =>
    intro t ht
    have hat : a ≠ t := fun h => ht (h ▸ List.mem_cons_self a l)
    have htl : t ∉ l := fun h => ht (List.mem_cons_of_mem a h)
    by_cases hd : d a = ∅
    · simp only [List.filterMap_cons, hd, if_true]
      exact ih t htl
    · simp only [List.filterMap_cons, hd, if_false]
      unfold lookupUnused
      rw [List.find?_cons_of_neg]
      · exact ih t htl
      · simp [hat]

theorem lookupUnused_of_mem (d : EntityType → Finset String) :
    ∀ (l : List EntityType) (t : EntityType), l.Nodup → t ∈ l →
      lookupUnused (l.filterMap fun x => if d x = ∅ then none else some (x, d x)) t = d t := by
  intro l
  induction l with
  | nil => intro t _ ht; exact absurd ht (List.not_mem_nil t)
  | cons a l ih =>
    intro t hnd ht
    rw [List.nodup_cons] at hnd
    by_cases hat : t = a
    · subst hat
      by_cases hd : d t = ∅
      · simp only [List.filterMap_cons, hd, if_true]
        rw [lookupUnused_of_not_mem d l t hnd.1]
      · simp only [List.filterMap_cons, hd, if_false]
        unfold lookupUnused
        rw [List.find?_cons_of_pos]
        · rfl
        · simp
    · have htl : t ∈ l := by
        rcases List.mem_cons.mp ht with h | h
        · exact absurd h hat
        · exact h
      by_cases hd : d a = ∅
      · simp only [List.filterMap_cons, hd, if_true]
        exact ih t hnd.2 htl
      · simp only [List.filterMap_cons, hd, if_false]
        unfold lookupUnused
        rw [List.find?_cons_of_neg]
        · exact ih t hnd.2 htl
        · simp only [beq_iff_eq]
          exact fun h => hat h.symm

/-- C5 (amended): for every configuration, resolver result and entity
type, the unused set reported by `find_unused_elements` is exactly the
set computed by the `defined` XPath minus the used set, and is disjoint
from the used set.  The amendment is that "defined" means the result of
the XPath query, which for `prefix-list` also matches the nested
reference form `from/prefix-list/name` — so a prefix-list name that is
referenced in that form but never declared can still be reported as
unused (see the counterexample). -/
theorem unused_eq_defined_sdiff_used :
    ∀ (cfg : Config) (used : UsedElements) (t : EntityType),
      lookupUnused (find_unused_elements cfg used) t = definedNames cfg t \ used.get t
      ∧ ∀ n ∈ lookupUnused (find_unused_elements cfg used) t, n ∉ used.get t := by
  intro cfg used t
  have hmain :
      lookupUnused (find_unused_elements cfg used) t = definedNames cfg t \ used.get t := by
    have h := lookupUnused_of_mem (fun x => definedNames cfg x \ used.get x) typeOrder t
      (by decide) (by cases t <;> decide)
    exact h
  refine ⟨hmain, ?_⟩
  intro n hn
  rw [hmain] at hn
  exact (Finset.mem_sdiff.mp hn).2

/-- Witness for C5 (amended) at a concrete configuration and type. -/
theorem unused_eq_defined_sdiff_used_witness :
    lookupUnused (find_unused_elements chainCfg emptyUsed) .policyStmt =
        definedNames chainCfg .policyStmt \ emptyUsed.get .policyStmt
      ∧ "P1" ∉ emptyUsed.get .policyStmt :=
  ⟨(unused_eq_defined_sdiff_used chainCfg emptyUsed .policyStmt).1,
    (unused_eq_defined_sdiff_used chainCfg emptyUsed .policyStmt).2 "P1" (by decide)⟩

/-- Counterexample for C5 as stated: in `ghostCfg` the name `GHOST` is
referenced (in the nested `from/prefix-list/name` form) and never
declared as a prefix-list, yet it is reported in the unused set for
`prefix-list`, because the `defined` XPath `//prefix-list/name/text()`
also matches the nested reference form. -/
theorem unused_ghost_counterexample :
    "GHOST" ∈ lookupUnused
        (find_unused_elements ghostCfg (build_dependency_graph ghostCfg).2) .plist
      ∧ ghostCfg.plDefs = []
      ∧ "GHOST" ∈ ghostCfg.policies.flatMap fun pol =>
          (fromSects pol).flatMap (·.plNested) := by
  exact ⟨by decide, rfl, by decide⟩

/-! ## Monotonicity of the resolver -/

theorem UsedLE.refl (u : UsedElements) : UsedLE u u :=
  ⟨Finset.Subset.refl _, Finset.Subset.refl _, Finset.Subset.refl _,
    Finset.Subset.refl _, Finset.Subset.refl _, Finset.Subset.refl _⟩

theorem UsedLE.trans {u v w : UsedElements} (h1 : UsedLE u v) (h2 : UsedLE v w) :
    UsedLE u w :=
  ⟨h1.1.trans h2.1, h1.2.1.trans h2.2.1, h1.2.2.1.trans h2.2.2.1,
    h1.2.2.2.1.trans h2.2.2.2.1, h1.2.2.2.2.1.trans h2.2.2.2.2.1,
    h1.2.2.2.2.2.trans h2.2.2.2.2.2⟩

theorem UsedLE_collectStepUsed (cfg : Config) (p : String) (u : UsedElements) :
    UsedLE u (collectStepUsed cfg p u) := by
  unfold collectStepUsed
  refine ⟨?_, ?_, ?_, ?_, ?_, ?_⟩ <;> simp only
  · exact Finset.subset_union_left
  · exact Finset.subset_union_left
  · exact Finset.subset_union_left.trans Finset.subset_union_left
  · exact Finset.subset_union_left
  · exact Finset.subset_insert _ _
  · exact Finset.Subset.refl _

theorem UsedLE_insertPolicy (pn : String) (u : UsedElements) :
    UsedLE u { u with policyUsed := insert pn u.policyUsed } :=
  ⟨Finset.Subset.refl _, Finset.Subset.refl _, Finset.Subset.refl _,
    Finset.Subset.refl _, Finset.subset_insert _ _, Finset.Subset.refl _⟩

theorem collect_visited_mono (cfg : Config) :
    ∀ (fuel : Nat) (p : String) (u : UsedElements) (v : List String),
      v ⊆ (collect_policy_dependencies cfg fuel p u v).2 := by
  intro fuel
  induction fuel with
  | zero => intro p u v; exact List.Subset.refl v
  | succ fuel ih =>
    intro p u v
    simp only [collect_policy_dependencies]
    by_cases hv : p ∈ v
    · simp only [hv, if_true]; exact List.Subset.refl v
    · simp only [hv, if_false]
      have aux : ∀ (l : List String) (st : UsedElements × List String),
          st.2 ⊆ ((l.foldl (fun st s =>
            collect_policy_dependencies cfg fuel s st.1 st.2) st)).2 := by
        intro l
        induction l with
        | nil => intro st; exact List.Subset.refl _
        | cons s l ihl =>
          intro st
          simp only [List.foldl_cons]
          exact (ih s st.1 st.2).trans (ihl _)
      exact (List.subset_cons_self p v).trans
        (aux (collectSubRefs cfg p) (collectStepUsed cfg p u, p :: v))

theorem collect_used_le (cfg : Config) :
    ∀ (fuel : Nat) (p : String) (u : UsedElements) (v : List String),
      UsedLE u (collect_policy_dependencies cfg fuel p u v).1 := by
  intro fuel
  induction fuel with
  | zero => intro p u v; exact UsedLE.refl u
  | succ fuel ih =>
    intro p u v
    simp only [collect_policy_dependencies]
    by_cases hv : p ∈ v
    · simp only [hv, if_true]; exact UsedLE.refl u
    · simp only [hv, if_false]
      have aux : ∀ (l : List String) (st : UsedElements × List String),
          UsedLE st.1 ((l.foldl (fun st s =>
            collect_policy_dependencies cfg fuel s st.1 st.2) st)).1 := by
        intro l
        induction l with
        | nil => intro st; exact UsedLE.refl _
        | cons s l ihl =>
          intro st
          simp only [List.foldl_cons]
          exact (ih s st.1 st.2).trans (ihl _)
      exact (UsedLE_collectStepUsed cfg p u).trans
        (aux (collectSubRefs cfg p) (collectStepUsed cfg p u, p :: v))

theorem collectFold_visited_mono (cfg : Config) (fuel : Nat) :
    ∀ (l : List String) (st : UsedElements × List String),
      st.2 ⊆ ((l.foldl (fun st s =>
        collect_policy_dependencies cfg fuel s st.1 st.2) st)).2 := by
  intro l
  induction l with
  | nil => intro st; exact List.Subset.refl _
  | cons s l ihl =>
    intro st
    simp only [List.foldl_cons]
    exact (collect_visited_mono cfg fuel s st.1 st.2).trans (ihl _)

theorem collectFold_used_le (cfg : Config) (fuel : Nat) :
    ∀ (l : List String) (st : UsedElements × List String),
      UsedLE st.1 ((l.foldl (fun st s =>
        collect_policy_dependencies cfg fuel s st.1 st.2) st)).1 := by
  intro l
  induction l with
  | nil => intro st; exact UsedLE.refl _
  | cons s l ihl =>
    intro st
    simp only [List.foldl_cons]
    exact (collect_used_le cfg fuel s st.1 st.2).trans (ihl _)

theorem collect_visited_sub_used (cfg : Config) :
    ∀ (fuel : Nat) (p : String) (u : UsedElements) (v : List String),
      ∀ x ∈ (collect_policy_dependencies cfg fuel p u v).2,
        x ∈ v ∨ x ∈ (collect_policy_dependencies cfg fuel p u v).1.policyUsed := by
  intro fuel
  induction fuel with
  | zero => intro p u v x hx; exact Or.inl hx
  | succ fuel ih =>
    intro p u v
    simp only [collect_policy_dependencies]
    by_cases hv : p ∈ v
    · simp only [hv, if_true]; exact fun x hx => Or.inl hx
    · simp only [hv, if_false]
      have aux : ∀ (l : List String) (st : UsedElements × List String),
          (∀ x ∈ st.2, x ∈ v ∨ x ∈ st.1.policyUsed) →
          ∀ x ∈ ((l.foldl (fun st s =>
              collect_policy_dependencies cfg fuel s st.1 st.2) st)).2,
            x ∈ v ∨ x ∈ ((l.foldl (fun st s =>
              collect_policy_dependencies cfg fuel s st.1 st.2) st)).1.policyUsed := by
        intro l
        induction l with
        | nil => intro st h; exact h
        | cons s l ihl =>
          intro st h
          simp only [List.foldl_cons]
          refine ihl _ ?_
          intro x hx
          rcases ih s st.1 st.2 x hx with hx' | hx'
          · rcases h x hx' with h' | h'
            · exact Or.inl h'
            · exact Or.inr ((collect_used_le cfg fuel s st.1 st.2).2.2.2.2.1 h')
          · exact Or.inr hx'
      refine aux _ _ ?_
      intro x hx
      rcases List.mem_cons.mp hx with rfl | hx'
      · exact Or.inr (by simp [collectStepUsed])
      · exact Or.inl hx'

theorem collect_self_visited (cfg : Config) (fuel : Nat) (p : String)
    (u : UsedElements) (v : List String) :
    p ∈ (collect_policy_dependencies cfg (fuel + 1) p u v).2 := by
  simp only [collect_policy_dependencies]
  by_cases hv : p ∈ v
  · simp [hv]
  · simp only [hv, if_false]
    exact collectFold_visited_mono cfg fuel _ _ (List.mem_cons_self p v)

theorem collect_sub_visited (cfg : Config) (fuel : Nat) (p : String)
    (u : UsedElements) (v : List String) (s : String)
    (hp : p ∉ v) (hs : s ∈ collectSubRefs cfg p) :
    s ∈ (collect_policy_dependencies cfg (fuel + 2) p u v).2 := by
  simp only [collect_policy_dependencies]
  simp only [hp, if_false]
  have aux : ∀ (l : List String) (st : UsedElements × List String), s ∈ l →
      s ∈ ((l.foldl (fun st s =>
        collect_policy_dependencies cfg (fuel + 1) s st.1 st.2) st)).2 := by
    intro l
    induction l with
    | nil => intro st h; exact absurd h (List.not_mem_nil s)
    | cons a l ihl =>
      intro st h
      simp only [List.foldl_cons]
      rcases List.mem_cons.mp h with rfl | h'
      · exact collectFold_visited_mono cfg (fuel + 1) l _
          (collect_self_visited cfg fuel s st.1 st.2)
      · exact ihl _ h'
  exact aux _ _ hs

theorem collect_marks_sub (cfg : Config) (fuel : Nat) (p : String)
    (u : UsedElements) (s : String) (hs : s ∈ collectSubRefs cfg p) :
    s ∈ (collect_policy_dependencies cfg (fuel + 2) p u []).1.policyUsed := by
  have hv := collect_sub_visited cfg fuel p u [] s (List.not_mem_nil p) hs
  rcases collect_visited_sub_used cfg (fuel + 2) p u [] s hv with h | h
  · exact absurd h (List.not_mem_nil s)
  · exact h

/-! ## Fuel adequacy: the visited set bounds the recursion depth -/

theorem matchingPolicies_nil (cfg : Config) (p : String)
    (hp : p ∉ policyNames cfg) : matchingPolicies cfg p = [] := by
  unfold matchingPolicies
  refine List.filter_eq_nil_iff.mpr ?_
  intro pol hpol
  simp only [beq_iff_eq]
  intro h
  exact hp (by
    unfold policyNames
    rw [List.mem_toFinset]
    exact List.mem_map.mpr ⟨pol, hpol, h⟩)

theorem collect_fuel_adequate (cfg : Config) :
    ∀ (fuel : Nat) (p : String) (u : UsedElements) (v : List String),
      (policyNames cfg \ v.toFinset).card < fuel →
      collect_policy_dependencies cfg fuel p u v =
        collect_policy_dependencies cfg (fuel + 1) p u v := by
  intro fuel
  induction fuel with
  | zero => intro p u v h; exact absurd h (Nat.not_lt_zero _)
  | succ fuel ih =>
    intro p u v hb
    show collect_policy_dependencies cfg (fuel + 1) p u v =
      collect_policy_dependencies cfg (fuel + 1 + 1) p u v
    simp only [collect_policy_dependencies]
    by_cases hv : p ∈ v
    · simp [hv]
    · simp only [hv, if_false]
      by_cases hdecl : p ∈ policyNames cfg
      · have hb' : (policyNames cfg \ (p :: v).toFinset).card < fuel := by
          have hmem : p ∈ policyNames cfg \ v.toFinset := by
            rw [Finset.mem_sdiff, List.mem_toFinset]
            exact ⟨hdecl, hv⟩
          have hpos := Finset.card_pos.mpr ⟨p, hmem⟩
          rw [List.toFinset_cons, Finset.sdiff_insert,
            Finset.card_erase_of_mem hmem]
          omega
        have aux : ∀ (l : List String) (st : UsedElements × List String),
            (policyNames cfg \ st.2.toFinset).card < fuel →
            l.foldl (fun st s =>
              collect_policy_dependencies cfg fuel s st.1 st.2) st =
            l.foldl (fun st s =>
              collect_policy_dependencies cfg (fuel + 1) s st.1 st.2) st := by
          intro l
          induction l with
          | nil => intro st _; rfl
          | cons s l ihl =>
            intro st hst
            simp only [List.foldl_cons]
            rw [← ih s st.1 st.2 hst]
            refine ihl _ ?_
            have hsub : st.2.toFinset ⊆
                (collect_policy_dependencies cfg fuel s st.1 st.2).2.toFinset := by
              intro x hx
              rw [List.mem_toFinset] at hx ⊢
              exact collect_visited_mono cfg fuel s st.1 st.2 hx
            calc (policyNames cfg \
                (collect_policy_dependencies cfg fuel s st.1 st.2).2.toFinset).card
                ≤ (policyNames cfg \ st.2.toFinset).card :=
                  Finset.card_le_card (Finset.sdiff_subset_sdiff
                    (Finset.Subset.refl _) hsub)
              _ < fuel := hst
        exact aux _ _ hb'
      · have hnil : collectSubRefs cfg p = [] := by
          unfold collectSubRefs
          rw [matchingPolicies_nil cfg p hdecl]
          rfl
        rw [hnil]
        rfl

theorem collect_fuel_adequate_add (cfg : Config) :
    ∀ (k fuel : Nat) (p : String) (u : UsedElements) (v : List String),
      (policyNames cfg \ v.toFinset).card < fuel →
      collect_policy_dependencies cfg fuel p u v =
        collect_policy_dependencies cfg (fuel + k) p u v := by
  intro k
  induction k with
  | zero => intro fuel p u v _; rfl
  | succ k ih =>
    intro fuel p u v hb
    rw [ih fuel p u v hb]
    have hb' : (policyNames cfg \ v.toFinset).card < fuel + k := by omega
    rw [collect_fuel_adequate cfg (fuel + k) p u v hb']
    rfl

/-! ## Monotonicity through the group-processing fold -/

theorem foldl_preserve {α β : Type} (P : α → Prop) (f : α → β → α)
    (hf : ∀ a b, P a → P (f a b)) :
    ∀ (l : List β) (a : α), P a → P (l.foldl f a) := by
  intro l
  induction l with
  | nil => intro a h; exact h
  | cons b l ihl =>
    intro a h
    simp only [List.foldl_cons]
    exact ihl _ (hf a b h)

theorem groupStep_used_le (cfg : Config) (acc : List Edge × UsedElements)
    (g : BgpGroup) : UsedLE acc.2 (groupStep cfg acc g).2 := by
  unfold groupStep
  by_cases hg : g.name ≠ "" ∧ g.neighbors ≠ []
  · rw [if_pos hg]
    refine foldl_preserve (fun st : List Edge × UsedElements => UsedLE acc.2 st.2)
      _ ?_ _ _ ?_
    · intro st pn h
      refine h.trans ((UsedLE_insertPolicy pn st.2).trans ?_)
      exact collect_used_le cfg (policyFuel cfg) pn _ []
    · exact ⟨Finset.Subset.refl _, Finset.Subset.refl _, Finset.Subset.refl _,
        Finset.Subset.refl _, Finset.Subset.refl _, Finset.subset_insert _ _⟩
  · rw [if_neg hg]
    exact UsedLE.refl _

/-! ## Claim C4: cycle-safe, terminating resolution -/

theorem mem_collectSubRefs (cfg : Config) {p : String} {pol : PolicyStatement}
    (hpol : pol ∈ cfg.policies) (hname : pol.name = p) {s : String}
    (hs : s ∈ subRefs pol) : s ∈ collectSubRefs cfg p := by
  unfold collectSubRefs
  refine List.mem_flatMap.mpr ⟨pol, ?_, hs⟩
  unfold matchingPolicies
  rw [List.mem_filter]
  exact ⟨hpol, by simp [hname]⟩

theorem two_le_policyFuel (cfg : Config) {p : String} {pol : PolicyStatement}
    (hpol : pol ∈ cfg.policies) (hname : pol.name = p) : 2 ≤ policyFuel cfg := by
  unfold policyFuel
  have hmem : p ∈ policyNames cfg := by
    unfold policyNames
    rw [List.mem_toFinset]
    exact List.mem_map.mpr ⟨pol, hpol, hname⟩
  have := Finset.card_pos.mpr ⟨p, hmem⟩
  omega

/-- C4: resolution of a policy cycle `A -> B -> A` from an active BGP
group importing `A` marks both `A` and `B` used (once each, the used set
being a set), and the resolver's recursion is bounded by the number of
distinct policy names: any fuel exceeding the number of distinct
not-yet-visited policy names yields the same result as every larger
fuel, because the visited set gains a new declared policy name at every
recursive level. -/
theorem cycle_resolution_marks_and_terminates :
    (∀ (cfg : Config) (A B : String) (polA polB : PolicyStatement) (g : BgpGroup),
      g ∈ cfg.bgpGroups → g.name ≠ "" → g.neighbors ≠ [] →
      (∃ e ∈ g.importExprs, A ∈ normalize_policy_expr e) →
      polA ∈ cfg.policies → polA.name = A → B ∈ subRefs polA →
      polB ∈ cfg.policies → polB.name = B → A ∈ subRefs polB →
      A ∈ (build_dependency_graph cfg).2.policyUsed ∧
        B ∈ (build_dependency_graph cfg).2.policyUsed)
    ∧ (∀ (cfg : Config) (fuel k : Nat) (p : String) (u : UsedElements)
        (v : List String),
      (policyNames cfg \ v.toFinset).card < fuel →
      collect_policy_dependencies cfg fuel p u v =
        collect_policy_dependencies cfg (fuel + k) p u v) := by
  constructor
  · intro cfg A B polA polB g hg hgname hgact hAimp hpolA hnameA hAB hpolB hnameB hBA
    have hAtok : A ∈ groupPolicyTokens g := by
      unfold groupPolicyTokens
      obtain ⟨e, he, hAe⟩ := hAimp
      exact List.mem_flatMap.mpr ⟨e, List.mem_append_left _ he, hAe⟩
    obtain ⟨l1, l2, hsplit⟩ := List.append_of_mem hg
    unfold build_dependency_graph
    rw [hsplit, List.foldl_append, List.foldl_cons]
    refine foldl_preserve
      (fun acc : List Edge × UsedElements =>
        A ∈ acc.2.policyUsed ∧ B ∈ acc.2.policyUsed) _ ?_ l2 _ ?_
    · intro acc g' h
      have hm := (groupStep_used_le cfg acc g').2.2.2.2.1
      exact ⟨hm h.1, hm h.2⟩
    · unfold groupStep
      rw [if_pos ⟨hgname, hgact⟩]
      obtain ⟨t1, t2, htok⟩ := List.append_of_mem hAtok
      rw [htok, List.foldl_append, List.foldl_cons]
      refine foldl_preserve
        (fun st : List Edge × UsedElements =>
          A ∈ st.2.policyUsed ∧ B ∈ st.2.policyUsed) _ ?_ t2 _ ?_
      · intro st pn h
        have hm := ((UsedLE_insertPolicy pn st.2).trans
          (collect_used_le cfg (policyFuel cfg) pn _ [])).2.2.2.2.1
        exact ⟨hm h.1, hm h.2⟩
      · constructor
        · exact (collect_used_le cfg (policyFuel cfg) A _ []).2.2.2.2.1
            (Finset.mem_insert_self A _)
        · obtain ⟨fuel0, hfuel0⟩ : ∃ fuel0, policyFuel cfg = fuel0 + 2 := by
            have := two_le_policyFuel cfg hpolA hnameA
            exact ⟨policyFuel cfg - 2, by omega⟩
          show B ∈ (collect_policy_dependencies cfg (policyFuel cfg) A _ []).1.policyUsed
          rw [hfuel0]
          exact collect_marks_sub cfg fuel0 A _ B
            (mem_collectSubRefs cfg hpolA hnameA hAB)
  · exact fun cfg fuel k p u v h => collect_fuel_adequate_add cfg k fuel p u v h

/-- Witness for C4 on the concrete cycle configuration `cycleCfg`. -/
theorem cycle_resolution_marks_and_terminates_witness :
    ("A" ∈ (build_dependency_graph cycleCfg).2.policyUsed ∧
      "B" ∈ (build_dependency_graph cycleCfg).2.policyUsed) ∧
    collect_policy_dependencies cycleCfg 3 "A" emptyUsed [] =
      collect_policy_dependencies cycleCfg (3 + 2) "A" emptyUsed [] :=
  ⟨cycle_resolution_marks_and_terminates.1 cycleCfg "A" "B"
      ⟨"A", [⟨[{ emptyFrom with policyRefs := ["B"] }], []⟩], [], []⟩
      ⟨"B", [⟨[{ emptyFrom with policyRefs := ["A"] }], []⟩], [], []⟩
      ⟨"G", ["10.0.0.1"], ["A"], []⟩
      (by decide) (by decide) (by decide) ⟨"A", by decide, by decide⟩
      (by decide) (by decide) (by decide) (by decide) (by decide) (by decide),
    cycle_resolution_marks_and_terminates.2 cycleCfg 3 2 "A" emptyUsed [] (by decide)⟩

/-! ## Closed form of the dependency graph's edge list -/

theorem foldl_fst_eq {β : Type} (f : List Edge × UsedElements → β → List Edge × UsedElements)
    (ef : β → Edge) (hf : ∀ st b, (f st b).1 = st.1 ++ [ef b]) :
    ∀ (l : List β) (st : List Edge × UsedElements),
      (l.foldl f st).1 = st.1 ++ l.map ef := by
  intro l
  induction l with
  | nil => intro st; simp
  | cons b l ihl =>
    intro st
    simp only [List.foldl_cons, List.map_cons]
    rw [ihl (f st b), hf st b]
    simp

theorem groupStep_edges (cfg : Config) (acc : List Edge × UsedElements)
    (g : BgpGroup) : (groupStep cfg acc g).1 = acc.1 ++ groupEdges g := by
  unfold groupStep groupEdges
  by_cases hg : g.name ≠ "" ∧ g.neighbors ≠ []
  · rw [if_pos hg, if_pos hg]
    exact foldl_fst_eq _ _ (fun st pn => rfl) (groupPolicyTokens g) _
  · rw [if_neg hg, if_neg hg]
    simp

theorem build_edges_eq (cfg : Config) :
    (build_dependency_graph cfg).1 =
      cfg.policies.flatMap (policyEdges cfg) ++ cfg.bgpGroups.flatMap groupEdges := by
  unfold build_dependency_graph
  have aux : ∀ (l : List BgpGroup) (acc : List Edge × UsedElements),
      ((l.foldl (groupStep cfg) acc)).1 = acc.1 ++ l.flatMap groupEdges := by
    intro l
    induction l with
    | nil => intro acc; simp
    | cons g l ihl =>
      intro acc
      simp only [List.foldl_cons, List.flatMap_cons]
      rw [ihl, groupStep_edges]
      simp
  rw [aux]

/-! ## Shapes of the edges contributed by policies and groups -/

theorem mem_fromEdges_cases (cfg : Config) (pname : String) (f : FromSect)
    (e : Edge) (he : e ∈ fromEdges cfg pname f) :
    (∃ n ∈ f.plNameRefs ++ f.plNested,
        e = (nodeStr .policyStmt pname, nodeStr .plist n))
    ∨ (∃ n ∈ f.communityRefs, pyStripStr n ≠ "" ∧
        e = (nodeStr .policyStmt pname, nodeStr .community n))
    ∨ (∃ n ∈ f.asPathRefs, e = (nodeStr .policyStmt pname, nodeStr .asPath n))
    ∨ (∃ gn ∈ f.asPathGroupRefs, pyStripStr gn ≠ "" ∧
        (e = (nodeStr .policyStmt pname, nodeStr .asPathGroup gn)
          ∨ ∃ an ∈ apgAsPaths cfg gn, e = (nodeStr .asPathGroup gn, nodeStr .asPath an)))
    ∨ (∃ n ∈ f.policyRefs, e = (nodeStr .policyStmt pname, nodeStr .policyStmt n)) := by
  unfold fromEdges at he
  simp only [List.mem_append] at he
  rcases he with ((((h | h) | h) | h) | h) | h
  · obtain ⟨n, hn, rfl⟩ := List.mem_map.mp h
    exact Or.inl ⟨n, List.mem_append_left _ hn, rfl⟩
  · obtain ⟨n, hn, rfl⟩ := List.mem_map.mp h
    exact Or.inl ⟨n, List.mem_append_right _ hn, rfl⟩
  · obtain ⟨n, hn, rfl⟩ := List.mem_map.mp h
    obtain ⟨hn', hp⟩ := List.mem_filter.mp hn
    exact Or.inr (Or.inl ⟨n, hn', bne_iff_ne.mp hp, rfl⟩)
  · obtain ⟨n, hn, rfl⟩ := List.mem_map.mp h
    exact Or.inr (Or.inr (Or.inl ⟨n, hn, rfl⟩))
  · obtain ⟨gn, hgn, hcons⟩ := List.mem_flatMap.mp h
    obtain ⟨hgn', hp⟩ := List.mem_filter.mp hgn
    rcases List.mem_cons.mp hcons with rfl | hmap
    · exact Or.inr (Or.inr (Or.inr (Or.inl ⟨gn, hgn', bne_iff_ne.mp hp, Or.inl rfl⟩)))
    · obtain ⟨an, han, rfl⟩ := List.mem_map.mp hmap
      exact Or.inr (Or.inr (Or.inr (Or.inl
        ⟨gn, hgn', bne_iff_ne.mp hp, Or.inr ⟨an, han, rfl⟩⟩)))
  · obtain ⟨n, hn, rfl⟩ := List.mem_map.mp h
    exact Or.inr (Or.inr (Or.inr (Or.inr ⟨n, hn, rfl⟩)))

theorem mem_policyEdges_cases (cfg : Config) (pol : PolicyStatement) (e : Edge)
    (he : e ∈ policyEdges cfg pol) :
    pol.name ≠ "" ∧
    ((∃ f ∈ fromSects pol,
        (∃ n ∈ f.plNameRefs ++ f.plNested,
            e = (nodeStr .policyStmt pol.name, nodeStr .plist n))
        ∨ (∃ n ∈ f.communityRefs, pyStripStr n ≠ "" ∧
            e = (nodeStr .policyStmt pol.name, nodeStr .community n))
        ∨ (∃ n ∈ f.asPathRefs, e = (nodeStr .policyStmt pol.name, nodeStr .asPath n))
        ∨ (∃ gn ∈ f.asPathGroupRefs, pyStripStr gn ≠ "" ∧
            (e = (nodeStr .policyStmt pol.name, nodeStr .asPathGroup gn)
              ∨ ∃ an ∈ apgAsPaths cfg gn, e = (nodeStr .asPathGroup gn, nodeStr .asPath an)))
        ∨ (∃ n ∈ f.policyRefs,
            e = (nodeStr .policyStmt pol.name, nodeStr .policyStmt n)))
      ∨ (∃ th ∈ thenSects pol, ∃ n ∈ th.communityNames, pyStripStr n ≠ "" ∧
          e = (nodeStr .policyStmt pol.name, nodeStr .community n))) := by
  unfold policyEdges at he
  by_cases hname : pol.name ≠ ""
  · rw [if_pos hname] at he
    refine ⟨hname, ?_⟩
    obtain ⟨t, ht, he'⟩ := List.mem_flatMap.mp he
    rcases List.mem_append.mp he' with h | h
    · obtain ⟨f, hf, hef⟩ := List.mem_flatMap.mp h
      exact Or.inl ⟨f, List.mem_flatMap.mpr ⟨t, ht, hf⟩,
        mem_fromEdges_cases cfg pol.name f e hef⟩
    · obtain ⟨th, hth, heth⟩ := List.mem_flatMap.mp h
      unfold thenEdges at heth
      obtain ⟨n, hn, rfl⟩ := List.mem_map.mp heth
      obtain ⟨hn', hp⟩ := List.mem_filter.mp hn
      exact Or.inr ⟨th, List.mem_flatMap.mpr ⟨t, ht, hth⟩, n, hn',
        bne_iff_ne.mp hp, rfl⟩
  · rw [if_neg hname] at he
    exact absurd he (List.not_mem_nil e)

theorem mem_groupEdges_cases (g : BgpGroup) (e : Edge) (he : e ∈ groupEdges g) :
    g.name ≠ "" ∧ g.neighbors ≠ [] ∧
      ∃ pn ∈ groupPolicyTokens g,
        e = (nodeStr .bgpGroup g.name, nodeStr .policyStmt pn) := by
  unfold groupEdges at he
  by_cases hg : g.name ≠ "" ∧ g.neighbors ≠ []
  · rw [if_pos hg] at he
    obtain ⟨pn, hpn, rfl⟩ := List.mem_map.mp he
    exact ⟨hg.1, hg.2, pn, hpn, rfl⟩
  · rw [if_neg hg] at he
    exact absurd he (List.not_mem_nil e)

/-! ## Claim C1: coverage of the dependency graph -/

theorem policyEdges_not_bgp_src (cfg : Config) (pol : PolicyStatement) (e : Edge)
    (he : e ∈ policyEdges cfg pol) (g pn : String) :
    e ≠ (nodeStr .bgpGroup g, nodeStr .policyStmt pn) := by
  intro heq
  obtain ⟨-, hcases⟩ := mem_policyEdges_cases cfg pol e he
  have hfst : e.1 = nodeStr .bgpGroup g := by rw [heq]
  rcases hcases with ⟨f, -, hc⟩ | ⟨th, -, n, -, -, rfl⟩
  · rcases hc with ⟨n, -, rfl⟩ | ⟨n, -, -, rfl⟩ | ⟨n, -, rfl⟩ |
      ⟨gn, -, -, rfl | ⟨an, -, rfl⟩⟩ | ⟨n, -, rfl⟩
    · exact nodeStr_ty_ne (by decide) _ _ hfst
    · exact nodeStr_ty_ne (by decide) _ _ hfst
    · exact nodeStr_ty_ne (by decide) _ _ hfst
    · exact nodeStr_ty_ne (by decide) _ _ hfst
    · exact nodeStr_ty_ne (by decide) _ _ hfst
    · exact nodeStr_ty_ne (by decide) _ _ hfst
  · exact nodeStr_ty_ne (by decide) _ _ hfst

/-- C1 (amended): the dependency graph contains every edge contributed by
every policy-statement (all the per-term `from`/`then` reference forms of
`policyEdges`); it contains an edge
`bgp-group.g -> policy-statement.pn` exactly when some BGP group named
`g` is active (nonempty name, at least one neighbor) and `pn` is one of
the normalized tokens of that group's import/export clauses — so edges
from inactive BGP groups do not appear; and the `apply-policy` /
`policy-name` reference forms followed by the resolver contribute no
edges: erasing all of them leaves the edge list unchanged.  Both
amendments are exhibited by the counterexample configuration. -/
theorem dependency_graph_edge_coverage :
    ∀ cfg : Config,
      (∀ pol ∈ cfg.policies, ∀ e ∈ policyEdges cfg pol,
        e ∈ (build_dependency_graph cfg).1)
      ∧ (∀ g pn : String,
          (nodeStr .bgpGroup g, nodeStr .policyStmt pn) ∈
              (build_dependency_graph cfg).1 ↔
            ∃ grp ∈ cfg.bgpGroups, grp.name = g ∧ grp.name ≠ "" ∧
              grp.neighbors ≠ [] ∧ pn ∈ groupPolicyTokens grp)
      ∧ (build_dependency_graph (dropSubRefForms cfg)).1 =
          (build_dependency_graph cfg).1 := by
  intro cfg
  refine ⟨?_, ?_, ?_⟩
  · intro pol hpol e he
    rw [build_edges_eq]
    exact List.mem_append_left _ (List.mem_flatMap.mpr ⟨pol, hpol, he⟩)
  · intro g pn
    rw [build_edges_eq]
    constructor
    · intro hmem
      rcases List.mem_append.mp hmem with h | h
      · exfalso
        obtain ⟨pol, hpol, he⟩ := List.mem_flatMap.mp h
        exact policyEdges_not_bgp_src cfg pol _ he g pn rfl
      · obtain ⟨grp, hgrp, he⟩ := List.mem_flatMap.mp h
        obtain ⟨hn, hact, pn', hpn', heq⟩ := mem_groupEdges_cases grp _ he
        rw [Prod.mk.injEq] at heq
        obtain ⟨hg1, hg2⟩ := heq
        have e1 := (nodeStr_inj hg1).2
        have e2 := (nodeStr_inj hg2).2
        exact ⟨grp, hgrp, e1.symm, hn, hact, e2 ▸ hpn'⟩
    · rintro ⟨grp, hgrp, hname, hne, hact, htok⟩
      refine List.mem_append_right _ (List.mem_flatMap.mpr ⟨grp, hgrp, ?_⟩)
      unfold groupEdges
      rw [if_pos ⟨hne, hact⟩]
      refine List.mem_map.mpr ⟨pn, htok, ?_⟩
      rw [hname]
  · rw [build_edges_eq, build_edges_eq]
    have hpol : ∀ pol : PolicyStatement,
        policyEdges (dropSubRefForms cfg)
          { pol with applyPolicyRefs := [], policyNameRefs := [] } =
          policyEdges cfg pol := by
      intro pol
      rw [@policyEdges_congr (dropSubRefForms cfg) cfg rfl]
      rfl
    show ((cfg.policies.map fun pol =>
        { pol with applyPolicyRefs := [], policyNameRefs := [] }).flatMap
          (policyEdges (dropSubRefForms cfg)))
        ++ cfg.bgpGroups.flatMap groupEdges =
      cfg.policies.flatMap (policyEdges cfg) ++ cfg.bgpGroups.flatMap groupEdges
    rw [List.flatMap_map]
    have hfun : (fun pol : PolicyStatement =>
        policyEdges (dropSubRefForms cfg)
          { pol with applyPolicyRefs := [], policyNameRefs := [] }) =
        policyEdges cfg := funext hpol
    rw [hfun]

/-- Counterexample for C1 as stated, refuting both parts at once: in
`c1Cfg` the inactive group `g` imports policy `P`, yet the graph has no
`bgp-group.g -> policy-statement.P` edge; and the resolver enumerates
the `apply-policy` sub-policy reference `Q -> R` (it is in
`collectSubRefs` and gets marked used by `collect_policy_dependencies`),
yet the graph has no `policy-statement.Q -> policy-statement.R` edge
(the graph of `c1Cfg` is empty). -/
theorem dependency_graph_coverage_counterexample :
    c1Cfg.bgpGroups = [inactiveGroup] ∧ inactiveGroup.neighbors = [] ∧
      inactiveGroup.importExprs = ["P"] ∧ "P" ∈ normalize_policy_expr "P" ∧
      (nodeStr .bgpGroup "g", nodeStr .policyStmt "P") ∉
        (build_dependency_graph c1Cfg).1 ∧
      "R" ∈ collectSubRefs c1Cfg "Q" ∧
      "R" ∈ (collect_policy_dependencies c1Cfg 3 "Q" emptyUsed []).1.policyUsed ∧
      (nodeStr .policyStmt "Q", nodeStr .policyStmt "R") ∉
        (build_dependency_graph c1Cfg).1 :=
  ⟨rfl, rfl, rfl, by decide, by decide, by decide, by decide, by decide⟩

/-- Witness for C1 (amended) on the concrete chain configuration. -/
theorem dependency_graph_edge_coverage_witness :
    (nodeStr .policyStmt "P1", nodeStr .policyStmt "P2") ∈
      (build_dependency_graph chainCfg).1 :=
  (dependency_graph_edge_coverage chainCfg).1
    ⟨"P1", [⟨[{ emptyFrom with policyRefs := ["P2"] }], []⟩], [], []⟩ (by decide)
    (nodeStr .policyStmt "P1", nodeStr .policyStmt "P2") (by decide)

/-! ## Claim C8: blank community / as-path-group captures are excluded -/

theorem collect_no_blank (cfg : Config) {n : String} (hn : pyStripStr n = "") :
    ∀ (fuel : Nat) (p : String) (u : UsedElements) (v : List String),
      n ∉ u.communityUsed ∧ n ∉ u.asPathGroupUsed →
      n ∉ (collect_policy_dependencies cfg fuel p u v).1.communityUsed ∧
        n ∉ (collect_policy_dependencies cfg fuel p u v).1.asPathGroupUsed := by
  have hstep : ∀ (p : String) (u : UsedElements),
      n ∉ u.communityUsed ∧ n ∉ u.asPathGroupUsed →
      n ∉ (collectStepUsed cfg p u).communityUsed ∧
        n ∉ (collectStepUsed cfg p u).asPathGroupUsed := by
    intro p u hu
    constructor
    · intro hmem
      simp only [collectStepUsed, Finset.mem_union, List.mem_toFinset] at hmem
      rcases hmem with h | h
      · exact hu.1 h
      · obtain ⟨-, hp⟩ := List.mem_filter.mp h
        exact bne_iff_ne.mp hp hn
    · intro hmem
      simp only [collectStepUsed, Finset.mem_union, List.mem_toFinset] at hmem
      rcases hmem with h | h
      · exact hu.2 h
      · obtain ⟨-, hp⟩ := List.mem_filter.mp h
        exact bne_iff_ne.mp hp hn
  intro fuel
  induction fuel with
  | zero => intro p u v h; exact h
  | succ fuel ih =>
    intro p u v h
    simp only [collect_policy_dependencies]
    by_cases hv : p ∈ v
    · simp only [hv, if_true]; exact h
    · simp only [hv, if_false]
      have aux : ∀ (l : List String) (st : UsedElements × List String),
          n ∉ st.1.communityUsed ∧ n ∉ st.1.asPathGroupUsed →
          n ∉ ((l.foldl (fun st s =>
              collect_policy_dependencies cfg fuel s st.1 st.2) st)).1.communityUsed ∧
            n ∉ ((l.foldl (fun st s =>
              collect_policy_dependencies cfg fuel s st.1 st.2) st)).1.asPathGroupUsed := by
        intro l
        induction l with
        | nil => intro st h'; exact h'
        | cons s l ihl =>
          intro st h'
          simp only [List.foldl_cons]
          exact ihl _ (ih s st.1 st.2 h')
      exact aux _ _ (hstep p u h)

theorem build_no_blank_used (cfg : Config) {n : String} (hn : pyStripStr n = "") :
    n ∉ (build_dependency_graph cfg).2.communityUsed ∧
      n ∉ (build_dependency_graph cfg).2.asPathGroupUsed := by
  unfold build_dependency_graph
  refine foldl_preserve
    (fun acc : List Edge × UsedElements =>
      n ∉ acc.2.communityUsed ∧ n ∉ acc.2.asPathGroupUsed)
    _ ?_ cfg.bgpGroups _ ?_
  · intro acc g h
    unfold groupStep
    by_cases hg : g.name ≠ "" ∧ g.neighbors ≠ []
    · rw [if_pos hg]
      refine foldl_preserve
        (fun st : List Edge × UsedElements =>
          n ∉ st.2.communityUsed ∧ n ∉ st.2.asPathGroupUsed)
        _ ?_ (groupPolicyTokens g) _ ?_
      · intro st pn h'
        exact collect_no_blank cfg hn (policyFuel cfg) pn _ [] h'
      · exact h
    · rw [if_neg hg]
      exact h
  · exact ⟨Finset.not_mem_empty n, Finset.not_mem_empty n⟩

theorem policyEdges_no_blank (cfg : Config) (pol : PolicyStatement) (e : Edge)
    (he : e ∈ policyEdges cfg pol) {n : String} (hn : pyStripStr n = "") :
    e.1 ≠ nodeStr .asPathGroup n ∧ e.2 ≠ nodeStr .asPathGroup n ∧
      e.2 ≠ nodeStr .community n := by
  obtain ⟨-, hcases⟩ := mem_policyEdges_cases cfg pol e he
  have hblank : ∀ m : String, pyStripStr m ≠ "" → m ≠ n := fun m hm heq => hm (heq ▸ hn)
  rcases hcases with ⟨f, -, hc⟩ | ⟨th, -, m, -, hn', rfl⟩
  · rcases hc with ⟨m, -, rfl⟩ | ⟨m, -, hn', rfl⟩ | ⟨m, -, rfl⟩ |
      ⟨gn, -, hn', rfl | ⟨an, -, rfl⟩⟩ | ⟨m, -, rfl⟩
    · exact ⟨nodeStr_ty_ne (by decide) _ _, nodeStr_ty_ne (by decide) _ _,
        nodeStr_ty_ne (by decide) _ _⟩
    · refine ⟨nodeStr_ty_ne (by decide) _ _, nodeStr_ty_ne (by decide) _ _, ?_⟩
      intro heq
      exact hblank m hn' (nodeStr_inj heq).2
    · exact ⟨nodeStr_ty_ne (by decide) _ _, nodeStr_ty_ne (by decide) _ _,
        nodeStr_ty_ne (by decide) _ _⟩
    · refine ⟨nodeStr_ty_ne (by decide) _ _, ?_, nodeStr_ty_ne (by decide) _ _⟩
      intro heq
      exact hblank gn hn' (nodeStr_inj heq).2
    · refine ⟨?_, nodeStr_ty_ne (by decide) _ _, nodeStr_ty_ne (by decide) _ _⟩
      intro heq
      exact hblank gn hn' (nodeStr_inj heq).2
    · exact ⟨nodeStr_ty_ne (by decide) _ _, nodeStr_ty_ne (by decide) _ _,
        nodeStr_ty_ne (by decide) _ _⟩
  · refine ⟨nodeStr_ty_ne (by decide) _ _, nodeStr_ty_ne (by decide) _ _, ?_⟩
    intro heq
    exact hblank m hn' (nodeStr_inj heq).2

/-- C8: a community or as-path-group reference whose text strips to the
empty string contributes nothing: it never enters the community or
as-path-group used-sets, and no graph edge mentions its would-be node
(neither as the source of nested as-path edges nor as a target), while a
capture with non-blank text does get its edge. -/
theorem blank_refs_excluded :
    ∀ (cfg : Config) (n : String), pyStripStr n = "" →
      (n ∉ (build_dependency_graph cfg).2.communityUsed ∧
        n ∉ (build_dependency_graph cfg).2.asPathGroupUsed)
      ∧ (∀ e ∈ (build_dependency_graph cfg).1,
          e.1 ≠ nodeStr .asPathGroup n ∧ e.2 ≠ nodeStr .asPathGroup n ∧
            e.2 ≠ nodeStr .community n)
      ∧ (∀ pol ∈ cfg.policies, pol.name ≠ "" →
          ∀ t ∈ pol.terms, ∀ f ∈ t.froms,
            (∀ m ∈ f.communityRefs, pyStripStr m ≠ "" →
              (nodeStr .policyStmt pol.name, nodeStr .community m) ∈
                (build_dependency_graph cfg).1) ∧
            (∀ gm ∈ f.asPathGroupRefs, pyStripStr gm ≠ "" →
              (nodeStr .policyStmt pol.name, nodeStr .asPathGroup gm) ∈
                (build_dependency_graph cfg).1)) := by
  intro cfg n hn
  refine ⟨build_no_blank_used cfg hn, ?_, ?_⟩
  · intro e he
    rw [build_edges_eq] at he
    rcases List.mem_append.mp he with h | h
    · obtain ⟨pol, -, hpe⟩ := List.mem_flatMap.mp h
      exact policyEdges_no_blank cfg pol e hpe hn
    · obtain ⟨grp, -, hge⟩ := List.mem_flatMap.mp h
      obtain ⟨-, -, pn, -, rfl⟩ := mem_groupEdges_cases grp e hge
      exact ⟨nodeStr_ty_ne (by decide) _ _, nodeStr_ty_ne (by decide) _ _,
        nodeStr_ty_ne (by decide) _ _⟩
  · intro pol hpol hname t ht f hf
    have hedge : ∀ e, e ∈ fromEdges cfg pol.name f →
        e ∈ (build_dependency_graph cfg).1 := by
      intro e hef
      rw [build_edges_eq]
      refine List.mem_append_left _ (List.mem_flatMap.mpr ⟨pol, hpol, ?_⟩)
      unfold policyEdges
      rw [if_pos hname]
      exact List.mem_flatMap.mpr ⟨t, ht,
        List.mem_append_left _ (List.mem_flatMap.mpr ⟨f, hf, hef⟩)⟩
    constructor
    · intro m hm hms
      refine hedge _ ?_
      unfold fromEdges
      refine List.mem_append_left _ (List.mem_append_left _ (List.mem_append_left _
        (List.mem_append_right _ ?_)))
      exact List.mem_map.mpr ⟨m, List.mem_filter.mpr ⟨hm, bne_iff_ne.mpr hms⟩, rfl⟩
    · intro gm hgm hgms
      refine hedge _ ?_
      unfold fromEdges
      refine List.mem_append_left _ (List.mem_append_right _ ?_)
      refine List.mem_flatMap.mpr
        ⟨gm, List.mem_filter.mpr ⟨hgm, bne_iff_ne.mpr hgms⟩, ?_⟩
      exact List.mem_cons_self _ _

/-- Witness for C8 on `blankRefCfg`: the blank captures are absent and
the proper captures `C1` / `APG1` produce their edges. -/
theorem blank_refs_excluded_witness :
    (" " ∉ (build_dependency_graph blankRefCfg).2.communityUsed ∧
      " " ∉ (build_dependency_graph blankRefCfg).2.asPathGroupUsed) ∧
    (nodeStr .policyStmt "P", nodeStr .community "C1") ∈
      (build_dependency_graph blankRefCfg).1 ∧
    (nodeStr .policyStmt "P", nodeStr .asPathGroup "APG1") ∈
      (build_dependency_graph blankRefCfg).1 :=
  ⟨(blank_refs_excluded blankRefCfg " " (by decide)).1,
    ((blank_refs_excluded blankRefCfg " " (by decide)).2.2
      ⟨"P", [⟨[⟨[], [], [" ", "C1"], [], ["  ", "APG1"], []⟩], []⟩], [], []⟩
      (by decide) (by decide) ⟨[⟨[], [], [" ", "C1"], [], ["  ", "APG1"], []⟩], []⟩
      (by decide) ⟨[], [], [" ", "C1"], [], ["  ", "APG1"], []⟩ (by decide)).1
      "C1" (by decide) (by decide),
    ((blank_refs_excluded blankRefCfg " " (by decide)).2.2
      ⟨"P", [⟨[⟨[], [], [" ", "C1"], [], ["  ", "APG1"], []⟩], []⟩], [], []⟩
      (by decide) (by decide) ⟨[⟨[], [], [" ", "C1"], [], ["  ", "APG1"], []⟩], []⟩
      (by decide) ⟨[], [], [" ", "C1"], [], ["  ", "APG1"], []⟩ (by decide)).2
      "APG1" (by decide) (by decide)⟩

/-! ## Invariants of the component computation -/

theorem insertNode_covers (comps : List Comp) (n : String) :
    ∃ c ∈ insertNode comps n, n ∈ c := by
  unfold insertNode
  by_cases h : comps.any (fun c => decide (n ∈ c))
  · rw [if_pos h]
    obtain ⟨c, hc, hdec⟩ := List.any_eq_true.mp h
    exact ⟨c, hc, of_decide_eq_true hdec⟩
  · rw [if_neg h]
    exact ⟨{n}, List.mem_cons_self _ _, Finset.mem_singleton_self n⟩

theorem insertNode_sup (comps : List Comp) (n : String) :
    ∀ c ∈ comps, c ∈ insertNode comps n := by
  intro c hc
  unfold insertNode
  by_cases h : comps.any (fun c => decide (n ∈ c))
  · rw [if_pos h]; exact hc
  · rw [if_neg h]; exact List.mem_cons_of_mem _ hc

theorem insertNode_inv (comps : List Comp) (n : String)
    (hdis : comps.Pairwise (fun a b => Disjoint a b))
    (hne : ∀ c ∈ comps, c.Nonempty) :
    (insertNode comps n).Pairwise (fun a b => Disjoint a b) ∧
      ∀ c ∈ insertNode comps n, c.Nonempty := by
  unfold insertNode
  by_cases h : comps.any (fun c => decide (n ∈ c))
  · rw [if_pos h]; exact ⟨hdis, hne⟩
  · rw [if_neg h]
    have hnot : ∀ c ∈ comps, n ∉ c := by
      intro c hc hmem
      exact h (List.any_eq_true.mpr ⟨c, hc, decide_eq_true hmem⟩)
    constructor
    · refine List.pairwise_cons.mpr ⟨?_, hdis⟩
      intro c hc
      exact Finset.disjoint_singleton_left.mpr (hnot c hc)
    · intro c hc
      rcases List.mem_cons.mp hc with rfl | hc'
      · exact ⟨n, Finset.mem_singleton_self n⟩
      · exact hne c hc'

theorem insertNode_bound (comps : List Comp) (n : String) (S : Finset String)
    (hb : ∀ c ∈ comps, c ⊆ S) (hn : n ∈ S) :
    ∀ c ∈ insertNode comps n, c ⊆ S := by
  intro c hc
  unfold insertNode at hc
  by_cases h : comps.any (fun c => decide (n ∈ c))
  · rw [if_pos h] at hc; exact hb c hc
  · rw [if_neg h] at hc
    rcases List.mem_cons.mp hc with rfl | hc'
    · exact Finset.singleton_subset_iff.mpr hn
    · exact hb c hc'

theorem pairwise_disjoint_unique {comps : List Comp}
    (hdis : comps.Pairwise (fun a b => Disjoint a b))
    {c1 c2 : Comp} (h1 : c1 ∈ comps) (h2 : c2 ∈ comps)
    {x : String} (hx1 : x ∈ c1) (hx2 : x ∈ c2) : c1 = c2 := by
  by_contra hne
  have hd : Disjoint c1 c2 :=
    List.Pairwise.forall (fun a b h => h.symm) hdis h1 h2 hne
  exact Finset.disjoint_left.mp hd hx1 hx2

theorem addEdgeComps_spec (comps : List Comp) (e : Edge)
    (hdis : comps.Pairwise (fun a b => Disjoint a b))
    (hne : ∀ c ∈ comps, c.Nonempty) :
    ((addEdgeComps comps e).Pairwise (fun a b => Disjoint a b) ∧
      ∀ c ∈ addEdgeComps comps e, c.Nonempty)
    ∧ (∀ c ∈ comps, ∃ c' ∈ addEdgeComps comps e, c ⊆ c')
    ∧ (∃ c ∈ addEdgeComps comps e, e.1 ∈ c ∧ e.2 ∈ c)
    ∧ (∀ S : Finset String, (∀ c ∈ comps, c ⊆ S) → e.1 ∈ S → e.2 ∈ S →
        ∀ c ∈ addEdgeComps comps e, c ⊆ S) := by
  set comps1 := insertNode (insertNode comps e.1) e.2 with hcomps1
  have hinv1 := insertNode_inv comps e.1 hdis hne
  have hinv2 := insertNode_inv (insertNode comps e.1) e.2 hinv1.1 hinv1.2
  have hcov1 : ∃ c ∈ comps1, e.1 ∈ c := by
    obtain ⟨c, hc, hec⟩ := insertNode_covers comps e.1
    exact ⟨c, insertNode_sup _ e.2 c hc, hec⟩
  have hcov2 : ∃ c ∈ comps1, e.2 ∈ c := insertNode_covers _ e.2
  have hsup : ∀ c ∈ comps, c ∈ comps1 := by
    intro c hc
    exact insertNode_sup _ e.2 c (insertNode_sup comps e.1 c hc)
  have hbound : ∀ S : Finset String, (∀ c ∈ comps, c ⊆ S) → e.1 ∈ S → e.2 ∈ S →
      ∀ c ∈ comps1, c ⊆ S := by
    intro S hb h1 h2
    exact insertNode_bound _ e.2 S (insertNode_bound comps e.1 S hb h1) h2
  obtain ⟨ca, hca, hca1⟩ := hcov1
  obtain ⟨cb, hcb, hcb2⟩ := hcov2
  have hfa : comps1.find? (fun c => decide (e.1 ∈ c)) ≠ none := by
    intro hnone
    have hsome : (comps1.find? (fun c => decide (e.1 ∈ c))).isSome :=
      List.find?_isSome.mpr ⟨ca, hca, decide_eq_true hca1⟩
    rw [hnone] at hsome
    exact Bool.noConfusion hsome
  have hfb : comps1.find? (fun c => decide (e.2 ∈ c)) ≠ none := by
    intro hnone
    have hsome : (comps1.find? (fun c => decide (e.2 ∈ c))).isSome :=
      List.find?_isSome.mpr ⟨cb, hcb, decide_eq_true hcb2⟩
    rw [hnone] at hsome
    exact Bool.noConfusion hsome
  obtain ⟨ca', hfa'⟩ := Option.ne_none_iff_exists'.mp hfa
  obtain ⟨cb', hfb'⟩ := Option.ne_none_iff_exists'.mp hfb
  have hca'1 : e.1 ∈ ca' := by
    have h := List.find?_some hfa'
    simpa using h
  have hcb'2 : e.2 ∈ cb' := by
    have h := List.find?_some hfb'
    simpa using h
  have hca'm : ca' ∈ comps1 := List.mem_of_find?_eq_some hfa'
  have hcb'm : cb' ∈ comps1 := List.mem_of_find?_eq_some hfb'
  have hgo : addEdgeComps comps e =
      (if ca' = cb' then comps1
        else (ca' ∪ cb') :: comps1.filter (fun c => decide (c ≠ ca') && decide (c ≠ cb'))) := by
    show (match comps1.find? (fun c => decide (e.1 ∈ c)),
        comps1.find? (fun c => decide (e.2 ∈ c)) with
      | some ca, some cb =>
        if ca = cb then comps1
        else (ca ∪ cb) :: comps1.filter (fun c => decide (c ≠ ca) && decide (c ≠ cb))
      | _, _ => comps1) =
      (if ca' = cb' then comps1
        else (ca' ∪ cb') :: comps1.filter (fun c => decide (c ≠ ca') && decide (c ≠ cb')))
    rw [hfa', hfb']
  by_cases hab : ca' = cb'
  · rw [hgo, if_pos hab]
    refine ⟨⟨hinv2.1, hinv2.2⟩, ?_, ?_, ?_⟩
    · intro c hc
      exact ⟨c, hsup c hc, Finset.Subset.refl c⟩
    · exact ⟨ca', hca'm, hca'1, hab ▸ hcb'2⟩
    · intro S hb h1 h2
      exact hbound S hb h1 h2
  · rw [hgo, if_neg hab]
    have hfilter_mem : ∀ c, c ∈ comps1.filter
        (fun c => decide (c ≠ ca') && decide (c ≠ cb')) ↔
        c ∈ comps1 ∧ c ≠ ca' ∧ c ≠ cb' := by
      intro c
      rw [List.mem_filter]
      simp
    refine ⟨⟨?_, ?_⟩, ?_, ?_, ?_⟩
    · refine List.pairwise_cons.mpr ⟨?_, ?_⟩
      · intro c hc
        obtain ⟨hc1, hcne1, hcne2⟩ := (hfilter_mem c).mp hc
        refine Finset.disjoint_union_left.mpr ⟨?_, ?_⟩
        · exact List.Pairwise.forall (fun a b h => h.symm) hinv2.1 hca'm hc1
            (fun h => hcne1 h.symm)
        · exact List.Pairwise.forall (fun a b h => h.symm) hinv2.1 hcb'm hc1
            (fun h => hcne2 h.symm)
      · exact List.Pairwise.sublist (List.filter_sublist comps1) hinv2.1
    · intro c hc
      rcases List.mem_cons.mp hc with rfl | hc'
      · obtain ⟨x, hx⟩ := hinv2.2 ca' hca'm
        exact ⟨x, Finset.mem_union_left _ hx⟩
      · exact hinv2.2 c ((hfilter_mem c).mp hc').1
    · intro c hc
      have hc1 : c ∈ comps1 := hsup c hc
      by_cases h1 : c = ca'
      · exact ⟨ca' ∪ cb', List.mem_cons_self _ _, h1 ▸ Finset.subset_union_left⟩
      · by_cases h2 : c = cb'
        · exact ⟨ca' ∪ cb', List.mem_cons_self _ _, h2 ▸ Finset.subset_union_right⟩
        · exact ⟨c, List.mem_cons_of_mem _ ((hfilter_mem c).mpr ⟨hc1, h1, h2⟩),
            Finset.Subset.refl c⟩
    · exact ⟨ca' ∪ cb', List.mem_cons_self _ _,
        Finset.mem_union_left _ hca'1, Finset.mem_union_right _ hcb'2⟩
    · intro S hb h1 h2 c hc
      rcases List.mem_cons.mp hc with rfl | hc'
      · exact Finset.union_subset (hbound S hb h1 h2 ca' hca'm)
          (hbound S hb h1 h2 cb' hcb'm)
      · exact hbound S hb h1 h2 c ((hfilter_mem c).mp hc').1

theorem wccFold_inv :
    ∀ (l : List Edge) (comps : List Comp),
      comps.Pairwise (fun a b => Disjoint a b) → (∀ c ∈ comps, c.Nonempty) →
      ((l.foldl addEdgeComps comps).Pairwise (fun a b => Disjoint a b) ∧
        ∀ c ∈ l.foldl addEdgeComps comps, c.Nonempty)
      ∧ (∀ c ∈ comps, ∃ c' ∈ l.foldl addEdgeComps comps, c ⊆ c')
      ∧ (∀ e ∈ l, ∃ c ∈ l.foldl addEdgeComps comps, e.1 ∈ c ∧ e.2 ∈ c)
      ∧ (∀ S : Finset String, (∀ c ∈ comps, c ⊆ S) →
          (∀ e ∈ l, e.1 ∈ S ∧ e.2 ∈ S) →
          ∀ c ∈ l.foldl addEdgeComps comps, c ⊆ S) := by
  intro l
  induction l with
  | nil =>
    intro comps hdis hne
    exact ⟨⟨hdis, hne⟩, fun c hc => ⟨c, hc, Finset.Subset.refl c⟩,
      fun e he => absurd he (List.not_mem_nil e),
      fun S hb _ c hc => hb c hc⟩
  | cons e l ihl =>
    intro comps hdis hne
    simp only [List.foldl_cons]
    have hspec := addEdgeComps_spec comps e hdis hne
    have hih := ihl (addEdgeComps comps e) hspec.1.1 hspec.1.2
    refine ⟨hih.1, ?_, ?_, ?_⟩
    · intro c hc
      obtain ⟨c', hc', hsub⟩ := hspec.2.1 c hc
      obtain ⟨c'', hc'', hsub'⟩ := hih.2.1 c' hc'
      exact ⟨c'', hc'', hsub.trans hsub'⟩
    · intro e' he'
      rcases List.mem_cons.mp he' with rfl | he''
      · obtain ⟨c, hc, h1, h2⟩ := hspec.2.2.1
        obtain ⟨c', hc', hsub⟩ := hih.2.1 c hc
        exact ⟨c', hc', hsub h1, hsub h2⟩
      · exact hih.2.2.1 e' he''
    · intro S hb hl
      refine hih.2.2.2 S ?_ (fun e' he' => hl e' (List.mem_cons_of_mem e he'))
      exact hspec.2.2.2 S hb (hl e (List.mem_cons_self e l)).1
        (hl e (List.mem_cons_self e l)).2

theorem wcc_inv (G : List Edge) :
    ((weakly_connected_components G).Pairwise (fun a b => Disjoint a b))
    ∧ (∀ c ∈ weakly_connected_components G, c.Nonempty)
    ∧ (∀ e ∈ G, ∃ c ∈ weakly_connected_components G, e.1 ∈ c ∧ e.2 ∈ c)
    ∧ (∀ c ∈ weakly_connected_components G, ∀ x ∈ c, x ∈ nodeSet G) := by
  have h := wccFold_inv G [] List.Pairwise.nil (fun c hc => absurd hc (List.not_mem_nil c))
  unfold weakly_connected_components
  refine ⟨h.1.1, h.1.2, h.2.2.1, ?_⟩
  intro c hc x hx
  refine h.2.2.2 (nodeSet G) (fun c hc => absurd hc (List.not_mem_nil c)) ?_ c hc hx
  intro e he
  unfold nodeSet
  constructor
  · rw [List.mem_toFinset]
    exact List.mem_flatMap.mpr ⟨e, he, by simp⟩
  · rw [List.mem_toFinset]
    exact List.mem_flatMap.mpr ⟨e, he, by simp⟩

theorem wcc_closed_under_pred (G : List Edge) :
    ∀ comp ∈ weakly_connected_components G, ∀ e ∈ G, e.2 ∈ comp → e.1 ∈ comp := by
  intro comp hcomp e he h2
  obtain ⟨c, hc, hc1, hc2⟩ := (wcc_inv G).2.2.1 e he
  have : comp = c := pairwise_disjoint_unique (wcc_inv G).1 hcomp hc h2 hc2
  rw [this]
  exact hc1

theorem wcc_not_hasOutsidePred (G : List Edge) :
    ∀ comp ∈ weakly_connected_components G, ¬ hasOutsidePred G comp := by
  intro comp hcomp h
  obtain ⟨nd, hnd, e, heG, he2, he1, -⟩ := h
  have heG' : e ∈ G := by
    unfold edgeFinset at heG
    exact List.mem_toFinset.mp heG
  exact he1 (wcc_closed_under_pred G comp hcomp e heG' (he2 ▸ hnd))

theorem wcc_all_spec_independent (G : List Edge) :
    ∀ comp ∈ weakly_connected_components G, specIndependent G comp := by
  intro comp hcomp nd hnd e heG he2
  have heG' : e ∈ G := by
    unfold edgeFinset at heG
    exact List.mem_toFinset.mp heG
  exact wcc_closed_under_pred G comp hcomp e heG' (he2 ▸ hnd)

/-- C2: the inbound-cross-boundary filter of
`find_independent_components` removes nothing — both endpoints of any
directed edge lie in the same weakly-connected component, so no node has
a predecessor outside its own component — and the function returns
exactly the weakly-connected components of the graph. -/
theorem find_independent_components_eq_wcc :
    ∀ G : List Edge,
      find_independent_components G = weakly_connected_components G := by
  intro G
  unfold find_independent_components
  refine List.filter_eq_self.mpr ?_
  intro comp hcomp
  rw [decide_eq_true_iff]
  exact wcc_not_hasOutsidePred G comp hcomp

/-- C3: `find_independent_components` returns exactly the
weakly-connected components satisfying the specified independence
predicate (no node with an inbound edge from outside the component) —
all components satisfy it — and on the concrete two-node policy chain
`P1 -> P2` it returns exactly one component containing both nodes. -/
theorem find_independent_components_spec :
    (∀ G : List Edge,
      find_independent_components G =
        (weakly_connected_components G).filter
          (fun comp => decide (specIndependent G comp)))
    ∧ find_independent_components (build_dependency_graph chainCfg).1 =
        [({nodeStr .policyStmt "P1", nodeStr .policyStmt "P2"} : Finset String)] := by
  constructor
  · intro G
    unfold find_independent_components
    rw [List.filter_eq_self.mpr, List.filter_eq_self.mpr]
    · intro comp hcomp
      rw [decide_eq_true_iff]
      exact wcc_all_spec_independent G comp hcomp
    · intro comp hcomp
      rw [decide_eq_true_iff]
      exact wcc_not_hasOutsidePred G comp hcomp
  · decide

/-! ## Claim C10: nodes exist only as endpoints of edges -/

theorem mem_nodeSet_iff (G : List Edge) (x : String) :
    x ∈ nodeSet G ↔ ∃ e ∈ G, x = e.1 ∨ x = e.2 := by
  unfold nodeSet
  rw [List.mem_toFinset, List.mem_flatMap]
  constructor
  · rintro ⟨e, he, hx⟩
    rcases List.mem_cons.mp hx with rfl | hx'
    · exact ⟨e, he, Or.inl rfl⟩
    · rcases List.mem_cons.mp hx' with rfl | hx''
      · exact ⟨e, he, Or.inr rfl⟩
      · exact absurd hx'' (List.not_mem_nil x)
  · rintro ⟨e, he, rfl | rfl⟩
    · exact ⟨e, he, by simp⟩
    · exact ⟨e, he, by simp⟩

theorem policyEdges_endpoint_types (cfg : Config) (pol : PolicyStatement)
    (e : Edge) (he : e ∈ policyEdges cfg pol) :
    ((∃ n, e.1 = nodeStr .policyStmt n) ∨ (∃ n, e.1 = nodeStr .asPathGroup n)) ∧
      ((∃ n, e.2 = nodeStr .plist n) ∨ (∃ n, e.2 = nodeStr .community n) ∨
        (∃ n, e.2 = nodeStr .asPath n) ∨ (∃ n, e.2 = nodeStr .asPathGroup n) ∨
        (∃ n, e.2 = nodeStr .policyStmt n)) := by
  obtain ⟨-, hcases⟩ := mem_policyEdges_cases cfg pol e he
  rcases hcases with ⟨f, -, hc⟩ | ⟨th, -, n, -, -, rfl⟩
  · rcases hc with ⟨n, -, rfl⟩ | ⟨n, -, -, rfl⟩ | ⟨n, -, rfl⟩ |
      ⟨gn, -, -, rfl | ⟨an, -, rfl⟩⟩ | ⟨n, -, rfl⟩
    · exact ⟨Or.inl ⟨_, rfl⟩, Or.inl ⟨_, rfl⟩⟩
    · exact ⟨Or.inl ⟨_, rfl⟩, Or.inr (Or.inl ⟨_, rfl⟩)⟩
    · exact ⟨Or.inl ⟨_, rfl⟩, Or.inr (Or.inr (Or.inl ⟨_, rfl⟩))⟩
    · exact ⟨Or.inl ⟨_, rfl⟩, Or.inr (Or.inr (Or.inr (Or.inl ⟨_, rfl⟩)))⟩
    · exact ⟨Or.inr ⟨_, rfl⟩, Or.inr (Or.inr (Or.inl ⟨_, rfl⟩))⟩
    · exact ⟨Or.inl ⟨_, rfl⟩, Or.inr (Or.inr (Or.inr (Or.inr ⟨_, rfl⟩)))⟩
  · exact ⟨Or.inl ⟨_, rfl⟩, Or.inr (Or.inl ⟨_, rfl⟩)⟩

/-- C10: a declared policy-statement that references nothing and is
referenced by nothing (and likewise a BGP group with no import/export
clause — group nodes are never edge targets) does not appear as a node
of the dependency graph at all, since the `DiGraph` gains nodes only as
endpoints of `add_edge` calls, and therefore belongs to no
weakly-connected component and is never reported in any independent
component. -/
theorem isolated_entity_outside_graph :
    (∀ (cfg : Config) (P : String),
      (∀ pol ∈ cfg.policies, pol.name = P →
        ∀ t ∈ pol.terms,
          (∀ f ∈ t.froms, f.plNameRefs = [] ∧ f.plNested = [] ∧
            f.communityRefs = [] ∧ f.asPathRefs = [] ∧ f.asPathGroupRefs = [] ∧
            f.policyRefs = []) ∧
          (∀ th ∈ t.thens, th.communityNames = [])) →
      (∀ pol ∈ cfg.policies, ∀ f ∈ fromSects pol, P ∉ f.policyRefs) →
      (∀ g ∈ cfg.bgpGroups, P ∉ groupPolicyTokens g) →
      nodeStr .policyStmt P ∉ nodeSet (build_dependency_graph cfg).1 ∧
        ∀ comp ∈ find_independent_components (build_dependency_graph cfg).1,
          nodeStr .policyStmt P ∉ comp)
    ∧ (∀ (cfg : Config) (Gn : String),
      (∀ g ∈ cfg.bgpGroups, g.name = Gn →
        g.importExprs = [] ∧ g.exportExprs = []) →
      nodeStr .bgpGroup Gn ∉ nodeSet (build_dependency_graph cfg).1 ∧
        ∀ comp ∈ find_independent_components (build_dependency_graph cfg).1,
          nodeStr .bgpGroup Gn ∉ comp) := by
  have hcomp : ∀ (G : List Edge) (x : String), x ∉ nodeSet G →
      ∀ comp ∈ find_independent_components G, x ∉ comp := by
    intro G x hx comp hcomp hmem
    have hcomp' : comp ∈ weakly_connected_components G := by
      unfold find_independent_components at hcomp
      exact List.mem_of_mem_filter hcomp
    exact hx ((wcc_inv G).2.2.2 comp hcomp' x hmem)
  constructor
  · intro cfg P h1 h2 h3
    have hnode : nodeStr .policyStmt P ∉ nodeSet (build_dependency_graph cfg).1 := by
      intro hmem
      obtain ⟨e, he, hx⟩ := (mem_nodeSet_iff _ _).mp hmem
      rw [build_edges_eq] at he
      rcases List.mem_append.mp he with h | h
      · obtain ⟨pol, hpol, hpe⟩ := List.mem_flatMap.mp h
        obtain ⟨-, hcases⟩ := mem_policyEdges_cases cfg pol e hpe
        have hempty : pol.name = P → ∀ f ∈ fromSects pol,
            f.plNameRefs = [] ∧ f.plNested = [] ∧ f.communityRefs = [] ∧
              f.asPathRefs = [] ∧ f.asPathGroupRefs = [] ∧ f.policyRefs = [] := by
          intro hn f hf
          obtain ⟨t, ht, hf'⟩ := List.mem_flatMap.mp hf
          exact (h1 pol hpol hn t ht).1 f hf'
        have hemptyTh : pol.name = P → ∀ th ∈ thenSects pol,
            th.communityNames = [] := by
          intro hn th hth
          obtain ⟨t, ht, hth'⟩ := List.mem_flatMap.mp hth
          exact (h1 pol hpol hn t ht).2 th hth'
        rcases hcases with ⟨f, hf, hc⟩ | ⟨th, hth, n, hn, -, rfl⟩
        · rcases hc with ⟨n, hn, rfl⟩ | ⟨n, hn, -, rfl⟩ | ⟨n, hn, rfl⟩ |
            ⟨gn, hgn, -, rfl | ⟨an, -, rfl⟩⟩ | ⟨n, hn, rfl⟩
          · rcases hx with hx | hx
            · have hp : pol.name = P := ((nodeStr_inj hx).2).symm
              have := hempty hp f hf
              rw [this.1, this.2.1] at hn
              exact absurd hn (List.not_mem_nil n)
            · exact nodeStr_ty_ne (by decide) _ _ hx
          · rcases hx with hx | hx
            · have hp : pol.name = P := ((nodeStr_inj hx).2).symm
              rw [(hempty hp f hf).2.2.1] at hn
              exact absurd hn (List.not_mem_nil n)
            · exact nodeStr_ty_ne (by decide) _ _ hx
          · rcases hx with hx | hx
            · have hp : pol.name = P := ((nodeStr_inj hx).2).symm
              rw [(hempty hp f hf).2.2.2.1] at hn
              exact absurd hn (List.not_mem_nil n)
            · exact nodeStr_ty_ne (by decide) _ _ hx
          · rcases hx with hx | hx
            · have hp : pol.name = P := ((nodeStr_inj hx).2).symm
              rw [(hempty hp f hf).2.2.2.2.1] at hgn
              exact absurd hgn (List.not_mem_nil gn)
            · exact nodeStr_ty_ne (by decide) _ _ hx
          · rcases hx with hx | hx
            · exact nodeStr_ty_ne (by decide) _ _ hx
            · exact nodeStr_ty_ne (by decide) _ _ hx
          · rcases hx with hx | hx
            · have hp : pol.name = P := ((nodeStr_inj hx).2).symm
              rw [(hempty hp f hf).2.2.2.2.2] at hn
              exact absurd hn (List.not_mem_nil n)
            · have hp : n = P := ((nodeStr_inj hx).2).symm
              exact h2 pol hpol f hf (hp ▸ hn)
        · rcases hx with hx | hx
          · have hp : pol.name = P := ((nodeStr_inj hx).2).symm
            rw [hemptyTh hp th hth] at hn
            exact absurd hn (List.not_mem_nil n)
          · exact nodeStr_ty_ne (by decide) _ _ hx
      · obtain ⟨g, hg, hge⟩ := List.mem_flatMap.mp h
        obtain ⟨-, -, pn, hpn, rfl⟩ := mem_groupEdges_cases g e hge
        rcases hx with hx | hx
        · exact nodeStr_ty_ne (by decide) _ _ hx
        · have hp : pn = P := ((nodeStr_inj hx).2).symm
          exact h3 g hg (hp ▸ hpn)
    exact ⟨hnode, hcomp _ _ hnode⟩
  · intro cfg Gn h
    have hnode : nodeStr .bgpGroup Gn ∉ nodeSet (build_dependency_graph cfg).1 := by
      intro hmem
      obtain ⟨e, he, hx⟩ := (mem_nodeSet_iff _ _).mp hmem
      rw [build_edges_eq] at he
      rcases List.mem_append.mp he with hpe | hge
      · obtain ⟨pol, -, hpe'⟩ := List.mem_flatMap.mp hpe
        obtain ⟨hsrc, htgt⟩ := policyEdges_endpoint_types cfg pol e hpe'
        rcases hx with hx | hx
        · rcases hsrc with ⟨n, hn⟩ | ⟨n, hn⟩ <;>
            exact nodeStr_ty_ne (by decide) _ _ (hx.trans hn).symm
        · rcases htgt with ⟨n, hn⟩ | ⟨n, hn⟩ | ⟨n, hn⟩ | ⟨n, hn⟩ | ⟨n, hn⟩ <;>
            exact nodeStr_ty_ne (by decide) _ _ (hx.trans hn).symm
      · obtain ⟨g, hg, hge'⟩ := List.mem_flatMap.mp hge
        obtain ⟨-, -, pn, hpn, rfl⟩ := mem_groupEdges_cases g e hge'
        rcases hx with hx | hx
        · have hgname : g.name = Gn := ((nodeStr_inj hx).2).symm
          obtain ⟨hi, he'⟩ := h g hg hgname
          unfold groupPolicyTokens at hpn
          rw [hi, he'] at hpn
          exact absurd hpn (List.not_mem_nil pn)
        · exact nodeStr_ty_ne (by decide) _ _ hx
    exact ⟨hnode, hcomp _ _ hnode⟩

/-- Witness for C10 on `loneCfg`: the reference-free policy `LONE` and
the clause-free group `H` are not nodes of the graph. -/
theorem isolated_entity_outside_graph_witness :
    nodeStr .policyStmt "LONE" ∉ nodeSet (build_dependency_graph loneCfg).1 ∧
      nodeStr .bgpGroup "H" ∉ nodeSet (build_dependency_graph loneCfg).1 :=
  ⟨(isolated_entity_outside_graph.1 loneCfg "LONE"
      (by decide) (by decide) (by decide)).1,
    (isolated_entity_outside_graph.2 loneCfg "H" (by decide)).1⟩
